import Mathlib

/-!
Verification of the KERI VDR TEL verifier (`keri/vdr/eventing.py`).

A shallow embedding of the transaction-event-log (TEL) verifier core:
the event model, the registry store (`Reger`), the per-registry verifier
(`Tever`) and the multi-registry dispatcher (`Tevery`), translated from
`src/keri/vdr/eventing.py`.  External collaborators (cryptographic
primitives, the key-value store codecs, `keri.core` helpers) are modelled
from the specification where noted.

Digests are modelled as the digested content itself wrapped in a binary
tree (`Dg`), i.e. as an ideal collision-free hash: `digest` is proved
injective, which corresponds to the standard assumption that the
self-addressing digest function never collides.
-/

set_option maxHeartbeats 1000000

namespace KeriVdr

/-- Error taxonomy of the verifier, mirroring the exception classes raised by
`keri/vdr/eventing.py` (`ValidationError`, `ValueError`, Python `KeyError` /
`TypeError`, `OutOfOrderError`, `LikelyDuplicitousError`, `MissingAnchorError`,
`MissingWitnessSignatureError`, `MissingEntryError`). -/
inductive Err where
  | validation
  | valueErr
  | keyErr
  | typeErr
  | outOfOrder
  | likelyDuplicitous
  | missingAnchor
  | missingWitnessSig
  | missingEntry
deriving DecidableEq, Repr

/-- Event kind tags (ilks) of TEL events, from `Ilks` as used in the source. -/
inductive Ilk where
  | vcp | vrt | iss | rev | bis | brv | ksn
deriving DecidableEq, Repr

/-- Digest values.  A digest is modelled as a finite tree of strings holding
the digested content itself: an ideal, collision-free self-addressing hash
(the real Blake3 digest is an external cryptographic primitive). -/
inductive Dg where
  | leaf (s : String)
  | node (l r : Dg)
deriving DecidableEq, Repr

/-- The `ra` seal field of `bis`/`brv` events: a `(i, s, d)` triple pointing at
the management-TEL event whose backer set governs them. -/
structure RaSeal where
  i : String
  s : String
  d : Dg
deriving DecidableEq, Repr

/-- Deserialized TEL event body (the `ked` of a `Serder`).  Required wire
fields `v`/`t`/`i`/`s` are plain fields; fields that are present only for some
ilks are `Option`s (`none` models a missing dictionary key).  The version
string `v` and raw serialization are external (round-trip law assumed) and
are not carried. -/
structure KED where
  t : Ilk
  i : String
  s : String
  ii : Option String := none
  p : Option Dg := none
  ri : Option String := none
  ra : Option RaSeal := none
  bt : Option String := none
  b : Option (List String) := none
  c : Option (List String) := none
  br : Option (List String) := none
  ba : Option (List String) := none
  dt : Option String := none
deriving DecidableEq, Repr

/-- Encode an optional string injectively into a digest tree. -/
def encOStr : Option String → Dg
  | none => .leaf "-"
  | some s => .node (.leaf s) (.leaf "+")

/-- Encode a string list injectively into a digest tree. -/
def encList : List String → Dg
  | [] => .leaf "#"
  | x :: xs => .node (.leaf x) (encList xs)

/-- Encode an optional string list injectively into a digest tree. -/
def encOList : Option (List String) → Dg
  | none => .leaf "-"
  | some xs => .node (encList xs) (.leaf "+")

/-- Encode an optional digest injectively into a digest tree. -/
def encODg : Option Dg → Dg
  | none => .leaf "-"
  | some d => .node d (.leaf "+")

/-- Encode an optional `ra` seal injectively into a digest tree. -/
def encORa : Option RaSeal → Dg
  | none => .leaf "-"
  | some r => .node (.leaf r.i) (.node (.leaf r.s) r.d)

/-- Encode an ilk as a string. -/
def ilkStr : Ilk → String
  | .vcp => "vcp" | .vrt => "vrt" | .iss => "iss" | .rev => "rev"
  | .bis => "bis" | .brv => "brv" | .ksn => "ksn"

/-- The self-addressing digest of a TEL event body (`serder.dig`).  Modelled
as an injective encoding of the event into a `Dg` tree: an ideal hash. -/
def digest (k : KED) : Dg :=
  .node (.leaf (ilkStr k.t))
    (.node (.leaf k.i)
      (.node (.leaf k.s)
        (.node (encOStr k.ii)
          (.node (encODg k.p)
            (.node (encOStr k.ri)
              (.node (encORa k.ra)
                (.node (encOStr k.bt)
                  (.node (encOList k.b)
                    (.node (encOList k.c)
                      (.node (encOList k.br)
                        (.node (encOList k.ba) (encOStr k.dt))))))))))))

/-! ## Association-list key-value stores

The LMDB key-value sub-databases are modelled as association lists with
`put` (write-if-absent, as the source's idempotent `putVal` semantics:
returns `false` when the key already exists), `pin` (overwrite) and `del`. -/

/-- Lookup in an association list. -/
def alookup {κ ν : Type} [DecidableEq κ] : List (κ × ν) → κ → Option ν
  | [], _ => none
  | e :: rest, k => if e.1 = k then some e.2 else alookup rest k

/-- Write-if-absent (`putVal`): returns the new store and whether the write
happened (`false` when the key already had a value). -/
def aput {κ ν : Type} [DecidableEq κ] (l : List (κ × ν)) (k : κ) (v : ν) :
    List (κ × ν) × Bool :=
  match alookup l k with
  | some _ => (l, false)
  | none => ((k, v) :: l, true)

/-- Overwrite (`pin`/`setVal`). -/
def apin {κ ν : Type} [DecidableEq κ] (l : List (κ × ν)) (k : κ) (v : ν) :
    List (κ × ν) :=
  (k, v) :: l.filter (fun e => e.1 ≠ k)

/-- Delete (`delVal`). -/
def adel {κ ν : Type} [DecidableEq κ] (l : List (κ × ν)) (k : κ) :
    List (κ × ν) :=
  l.filter (fun e => e.1 ≠ k)

/-! ## Keys and basic wire-format helpers -/

/-- `dgKey(pre, dig)`: a (prefix, digest) storage key. -/
structure DgK where
  pre : String
  dig : Dg
deriving DecidableEq, Repr

/-- `snKey(pre, sn)`: a (prefix, sequence number) storage key. -/
structure SnK where
  pre : String
  sn : Nat
deriving DecidableEq, Repr

/-- A character legal in a qualified base64 (qb64) identifier. -/
def qb64Char (c : Char) : Bool := c.isAlphanum || c == '-' || c == '_'

/-- Modelled from the spec: validity of an identifier per
`Prefixer(qb64b=serder.preb)` from `keri.core.coring` (not under `src/`) —
"identifiers, digests, and signatures are qualified base64": nonempty and
drawn from the base64url alphabet. -/
def validPre (s : String) : Bool := !s.data.isEmpty && s.data.all qb64Char

/-- Modelled from the spec: `nsKey` from `keri.vdr.viring` (not under `src/`)
joins the registry prefix and the credential identifier into the
per-credential key `nsKey(regk, vcpre)`; the joining character is outside the
qb64 alphabet. -/
def nsKey (r v : String) : String := String.mk (r.data ++ ':' :: v.data)

/-- Numeric value of a hex digit character. -/
def hexDigitVal (c : Char) : Nat :=
  if c.isDigit then c.toNat - 48
  else if 'a' ≤ c && c ≤ 'f' then c.toNat - 87
  else c.toNat - 55

/-- A character accepted by Python `int(s, 16)` (either case). -/
def pyHexChar (c : Char) : Bool :=
  c.isDigit || ('a' ≤ c && c ≤ 'f') || ('A' ≤ c && c ≤ 'F')

/-- Python `int(s, 16)`: parse a hex string (either case, leading zeros
allowed), raising `ValueError` otherwise. -/
def pyIntHex (s : String) : Except Err Nat :=
  if s ≠ "" ∧ s.data.all pyHexChar then
    .ok (s.data.foldl (fun n c => 16 * n + hexDigitVal c) 0)
  else .error .valueErr

/-- A lowercase hex digit character. -/
def lowHexChar (c : Char) : Bool := c.isDigit || ('a' ≤ c && c ≤ 'f')

/-- Modelled from the spec: `validateSN` from `keri.core.eventing` (not under
`src/`): the sequence number field must parse as lowercase hex with no
leading zeros, and `sn = 0` iff the ilk is inceptive; raises a validation
error otherwise. -/
def validateSN (s : String) (inceptive : Bool) : Except Err Nat :=
  if s.data.isEmpty then .error .validation
  else if !s.data.all lowHexChar then .error .validation
  else if s.data.length > 1 && s.data.head? == some '0' then .error .validation
  else if inceptive then
    (if s.data.foldl (fun n c => 16 * n + hexDigitVal c) 0 = 0 then .ok 0
     else .error .validation)
  else
    (if s.data.foldl (fun n c => 16 * n + hexDigitVal c) 0 = 0 then
      .error .validation
     else .ok (s.data.foldl (fun n c => 16 * n + hexDigitVal c) 0))

/-- `"{:x}".format(n)`: lowercase hex, no leading zeros. -/
def natToHex (n : Nat) : String := String.mk (Nat.toDigits 16 n)

/-- Modelled from the spec: `ample(n)` from `keri.core.eventing` (not under
`src/`): the default backer threshold for `n` backers, the smallest integer
at least `⌈(n+1)/2⌉` (majority with one-fault tolerance). -/
def ample (n : Nat) : Nat := if n = 0 then 0 else (n + 2) / 2

/-! ## Ordered sets (the `orderedset` dependency)

`OrderedSet` is an external dependency; modelled from the spec and the
library semantics: a duplicate-free list preserving first-occurrence order,
with order-preserving difference, union and intersection, and order-sensitive
equality. -/

/-- Keep-first deduplication with an accumulator of already-seen members:
the structural form of `oset(xs)`. -/
def osetLAux (seen : List String) : List String → List String
  | [] => []
  | x :: xs =>
    if x ∈ seen then osetLAux seen xs
    else x :: osetLAux (x :: seen) xs

/-- `oset(xs)`: deduplicate keeping the first occurrence. -/
def osetL (l : List String) : List String := osetLAux [] l

/-- Ordered-set difference: elements of `a` not in `b`, in `a`'s order. -/
def osetDiff (a b : List String) : List String :=
  a.filter (fun x => decide (x ∉ b))

/-- Ordered-set union: `a` then the members of `b` not in `a`. -/
def osetUnion (a b : List String) : List String :=
  a ++ b.filter (fun x => decide (x ∉ a))

/-- Ordered-set intersection, in `a`'s order. -/
def osetInter (a b : List String) : List String :=
  a.filter (fun x => decide (x ∈ b))

/-! ## Signatures, KEL events, cues -/

/-- An indexed backer signature (`Siger`/biger).  Modelled from the spec:
signature verification is an external cryptographic primitive, so a biger
carries the index into the backer list and the prefix of its signer, and a
signature verifies against verfer `v` iff its signer equals `v`. -/
structure Biger where
  index : Nat
  signer : String
deriving DecidableEq, Repr

/-- Deduplicate signatures by index, keeping the first occurrence
(structural accumulator form). -/
def dedupByIdxAux (seen : List Nat) : List Biger → List Biger
  | [] => []
  | g :: gs =>
    if g.index ∈ seen then dedupByIdxAux seen gs
    else g :: dedupByIdxAux (g.index :: seen) gs

/-- Deduplicate signatures by index, keeping the first occurrence. -/
def dedupByIdx (l : List Biger) : List Biger := dedupByIdxAux [] l

/-- Modelled from the spec: `verifySigs` from `keri.core.eventing` (not under
`src/`): "signature-verify-and-dedup which returns the subset of `bigers`
with valid signatures and their indices", verified positionally against the
backer verifiers. -/
def verifySigs (bigers : List Biger) (verfers : List String) :
    List Biger × List Nat :=
  let ok := bigers.filter (fun g =>
    decide (g.index < verfers.length) && decide (verfers.get? g.index = some g.signer))
  let uniq := dedupByIdx ok
  (uniq, uniq.map (fun g => g.index))

/-- The body of the registry state notice built by the `state` constructor
(`ksn`-shaped), pinned under `states`. -/
structure TSN where
  i : String
  s : Nat
  d : Dg
  ii : String
  et : Ilk
  a : Nat × Dg
  bt : Nat
  br : List String
  ba : List String
  b : List String
  c : List String
deriving DecidableEq, Repr

/-- Notices emitted on the cue deck: `{kin: "query", q: {pre, sn}}`. -/
inductive Cue where
  | query (pre : String) (sn : Nat)
deriving DecidableEq, Repr

/-- The `toad` argument of `valAnchorBigs`: the source passes either a parsed
int, or the raw hex string `ked["bt"]` of the governing management event
(from `getBackerState`). -/
inductive ToadV where
  | num (n : Nat)
  | hx (s : String)
deriving DecidableEq, Repr

/-- A seal `{i, s, d}` embedded in the `a` field of a KEL event. -/
structure Seal where
  i : String
  s : String
  d : Dg
deriving DecidableEq, Repr

/-- A deserialized KEL (key event log) event as read by `verifyAnchor`:
identifier, hex sequence number, seal list `a` (`none` models JSON null) and
the remaining content, opaque to the TEL verifier (`x`). -/
structure KelKed where
  i : String
  s : String
  a : Option (List Seal)
  x : String
deriving DecidableEq, Repr

def encSeal (s : Seal) : Dg := .node (.leaf s.i) (.node (.leaf s.s) s.d)

def encSealList : List Seal → Dg
  | [] => .leaf "#"
  | x :: xs => .node (encSeal x) (encSealList xs)

def encOSeals : Option (List Seal) → Dg
  | none => .leaf "-"
  | some xs => .node (encSealList xs) (.leaf "+")

/-- Digest of a KEL event (`eserder.dig`), an ideal hash like `digest`. -/
def kelDigest (e : KelKed) : Dg :=
  .node (.leaf e.i) (.node (.leaf e.s) (.node (encOSeals e.a) (.leaf e.x)))

/-- The KEL store consumed by the verifier (read-only here):
`getKeLast(snKey(pre, sn)) → dig` and `getEvt(dgKey(pre, dig)) → raw`. -/
structure Kels where
  kes : List (SnK × Dg) := []
  evts : List (DgK × KelKed) := []
deriving DecidableEq, Repr

def getKeLast (db : Kels) (k : SnK) : Option Dg := alookup db.kes k

def getEvt (db : Kels) (k : DgK) : Option KelKed := alookup db.evts k

/-! ## The registry store (`Reger`) -/

/-- The registry store sub-databases used by the verifier.  `tvt` holds event
bodies (raw bytes stand for the deserialized `KED` via the round-trip law),
`tel` the first-seen index by sn, `anc` the anchor couples, `tib` backer
signatures, `bak` backer sets, `tets` first-seen timestamps (time itself is
external, so only presence is modelled), `tae`/`twe`/`oot` the escrows, and
`states` the per-registry state snapshots. -/
structure Regs where
  tvt : List (DgK × KED) := []
  tel : List (SnK × Dg) := []
  anc : List (DgK × (Nat × Dg)) := []
  tib : List (DgK × List Biger) := []
  bak : List (DgK × List String) := []
  tets : List (DgK × Unit) := []
  tae : List (SnK × Dg) := []
  twe : List (SnK × Dg) := []
  oot : List (SnK × Dg) := []
  states : List (String × TSN) := []
deriving DecidableEq, Repr

def getTvt (rg : Regs) (k : DgK) : Option KED := alookup rg.tvt k

def putTvt (rg : Regs) (k : DgK) (v : KED) : Regs :=
  { rg with tvt := (aput rg.tvt k v).1 }

def getTel (rg : Regs) (k : SnK) : Option Dg := alookup rg.tel k

def putTel (rg : Regs) (k : SnK) (v : Dg) : Regs :=
  { rg with tel := (aput rg.tel k v).1 }

def getAnc (rg : Regs) (k : DgK) : Option (Nat × Dg) := alookup rg.anc k

def putAnc (rg : Regs) (k : DgK) (v : Nat × Dg) : Regs :=
  { rg with anc := (aput rg.anc k v).1 }

def getTibs (rg : Regs) (k : DgK) : List Biger := (alookup rg.tib k).getD []

def putTibs (rg : Regs) (k : DgK) (v : List Biger) : Regs :=
  { rg with tib := (aput rg.tib k v).1 }

def getBaks (rg : Regs) (k : DgK) : List String := (alookup rg.bak k).getD []

def putBaks (rg : Regs) (k : DgK) (v : List String) : Regs :=
  { rg with bak := (aput rg.bak k v).1 }

def delBaks (rg : Regs) (k : DgK) : Regs := { rg with bak := adel rg.bak k }

def tetsPin (rg : Regs) (k : DgK) : Regs := { rg with tets := apin rg.tets k () }

def putTae (rg : Regs) (k : SnK) (v : Dg) : Regs × Bool :=
  let r := aput rg.tae k v
  ({ rg with tae := r.1 }, r.2)

def delTae (rg : Regs) (k : SnK) : Regs := { rg with tae := adel rg.tae k }

def putTwe (rg : Regs) (k : SnK) (v : Dg) : Regs :=
  { rg with twe := (aput rg.twe k v).1 }

def putOot (rg : Regs) (k : SnK) (v : Dg) : Regs :=
  { rg with oot := (aput rg.oot k v).1 }

def statesPin (rg : Regs) (k : String) (v : TSN) : Regs :=
  { rg with states := apin rg.states k v }

/-- `cntTels(vci)`: the number of TEL index entries under prefix `vci`. -/
def cntTels (rg : Regs) (vci : String) : Nat :=
  (rg.tel.filter (fun e => decide (e.1.pre = vci))).length

/-- `Serder.sn`: the parsed hex sequence number of an event body.  Events
reaching the writers that key by `serder.sn` have already passed
`validateSN`, for which this fold is the parsed value. -/
def KED.snat (k : KED) : Nat :=
  k.s.data.foldl (fun n c => 16 * n + hexDigitVal c) 0

/-- Render a digest tree as a qb64-safe (hex) string; used only for deriving
self-addressing identifiers, where no injectivity is required. -/
def dgStr : Dg → String
  | .leaf s => String.join (s.data.map (fun c => natToHex c.toNat))
  | .node l r => dgStr l ++ dgStr r

/-- Modelled from the spec: self-addressing identifier derivation
(`Prefixer(ked=..)` from `keri.core.coring`, not under `src/`): the digest of
the event body with the identifier field blanked, rendered in qb64. -/
def derivePre (k : KED) : String := "E" ++ dgStr (digest { k with i := "" })

/-- Modelled from the spec: `Prefixer.verify(ked, prefixed=True)`: the `i`
field matches the derivation over the body with `i` blanked. -/
def saidVerify (k : KED) : Bool := k.i == derivePre k

/-! ## Tever — the per-registry verifier -/

/-- The in-memory state of a per-registry verifier (`Tever`).  `prefixer` is
`.prefixer.qb64`; `regk` is the `.regk` attribute — the `Tevery`'s
own-registry restriction during inception (`none` models Python falsy
`None`/empty), overwritten with the registry prefix at the end of inception;
`loc` is `.local` (a Lean keyword). -/
structure Tever where
  pre : String
  prefixer : String
  regk : Option String
  loc : Bool
  sn : Nat
  serder : KED
  ilk : Ilk
  toad : Nat
  baks : List String
  cuts : List String
  adds : List String
  noBackers : Bool
deriving DecidableEq, Repr

/-- `Tever.verifyAnchor`: retrieve the anchoring KEL event and verify the
seal (source lines 1326-1374). -/
def Tever.verifyAnchor (tv : Tever) (db : Kels) (serder : KED) (seqner : Nat)
    (diger : Dg) : Bool :=
  match getKeLast db ⟨tv.pre, seqner⟩ with
  | none => false
  | some dig =>
    match getEvt db ⟨tv.pre, dig⟩ with
    | none => false
    | some eserder =>
      if kelDigest eserder ≠ diger then false
      else
        match eserder.a with
        | none => false
        | some seals =>
          match seals with
          | [sl] =>
            decide (sl.i = serder.i ∧ sl.s = serder.s ∧ digest serder = sl.d)
          | _ => false

/-- `Tever.escrowPWEvent`: escrow of a partially witnessed event (source
lines 1376-1393). -/
def Tever.escrowPWEvent (rg : Regs) (serder : KED) (seqner : Nat) (diger : Dg)
    (bigers : List Biger) : Regs :=
  let dgkey : DgK := ⟨serder.i, digest serder⟩
  let rg := putAnc rg dgkey (seqner, diger)
  let rg := putTibs rg dgkey bigers
  let rg := putTvt rg dgkey serder
  putTwe rg ⟨serder.i, serder.snat⟩ (digest serder)

/-- `Tever.escrowALEvent`: escrow of an anchorless event; returns whether the
`tae` write succeeded (`false` when already escrowed), per the source
docstring (lines 1396-1422).  `seqner`/`diger` are always provided on the
paths modelled, so the anchor couple is always written. -/
def Tever.escrowALEvent (rg : Regs) (serder : KED) (seqner : Nat) (diger : Dg)
    (bigers : List Biger) (baks : List String) : Regs × Bool :=
  let key : DgK := ⟨serder.i, digest serder⟩
  let rg := putAnc rg key (seqner, diger)
  let rg := if bigers ≠ [] then putTibs rg key bigers else rg
  let rg := if baks ≠ [] then putBaks (delBaks rg key) key baks else rg
  let rg := putTvt rg key serder
  putTae rg ⟨serder.i, serder.snat⟩ (digest serder)

/-- `Tever.logEvent`: idempotent log writes for a verified event (source
lines 1233-1265). -/
def Tever.logEvent (rg : Regs) (pre : String) (sn : Nat) (serder : KED)
    (seqner : Nat) (diger : Dg) (bigers : List Biger) (baks : List String) :
    Regs :=
  let key : DgK := ⟨pre, digest serder⟩
  let rg := putAnc rg key (seqner, diger)
  let rg := if bigers ≠ [] then putTibs rg key bigers else rg
  let rg := if baks ≠ [] then putBaks (delBaks rg key) key baks else rg
  let rg := tetsPin rg key
  let rg := putTvt rg key serder
  putTel rg ⟨pre, sn⟩ (digest serder)

/-- The condition under which `valAnchorBigs` enforces the backer threshold
(source lines 1307-1308): a nonempty backer list and either promiscuous mode
(no own registry) or a non-local event whose own registry is not among the
backers. -/
def externEvt (tv : Tever) (baks : List String) : Bool :=
  match tv.regk with
  | none => decide (baks ≠ [])
  | some r => decide (baks ≠ []) && !tv.loc && decide (r ∉ baks)

/-- `Tever.valAnchorBigs`: validate anchor and backer signatures (source
lines 1267-1324).  Backer validation applies only to "external" events per
`externEvt`. -/
def Tever.valAnchorBigs (tv : Tever) (db : Kels) (rg : Regs) (cs : List Cue)
    (serder : KED) (seqner : Nat) (diger : Dg) (bigers : List Biger)
    (toad : ToadV) (baks : List String) :
    Regs × List Cue × Except Err (List Biger) :=
  let berfers := baks
  let vres := verifySigs bigers berfers
  let vbigers := vres.1
  let bindices := vres.2
  if ¬ tv.verifyAnchor db serder seqner diger then
    let er := Tever.escrowALEvent rg serder seqner diger vbigers baks
    let cs := if er.2 then cs ++ [Cue.query tv.pre seqner] else cs
    (er.1, cs, .error .missingAnchor)
  else
    if externEvt tv baks then
      match (match toad with | .num n => Except.ok n | .hx s => pyIntHex s) with
      | .error e => (rg, cs, .error e)
      | .ok toadN =>
        if baks.length < toadN then (rg, cs, .error .validation)
        else if bindices.length < toadN then
          (Tever.escrowPWEvent rg serder seqner diger vbigers, cs,
            .error .missingWitnessSig)
        else (rg, cs, .ok vbigers)
    else (rg, cs, .ok vbigers)

/-- `Tever.getBackerState`: resolve `(toad, baks)` from the management-TEL
event referenced by the `ra` seal (source lines 1425-1457).  The absent
referenced event raises a validation error ("have to escrow this
somewhere"). -/
def Tever.getBackerState (tv : Tever) (rg : Regs) (ked : KED) :
    Except Err (ToadV × List String) :=
  match ked.ra with
  | none => .error .keyErr
  | some rega =>
    if rega.i ≠ tv.prefixer then .error .validation
    else
      match getTvt rg ⟨rega.i, rega.d⟩ with
      | none => .error .validation
      | some rserder =>
        match rserder.bt with
        | none => .error .keyErr
        | some rtoad => .ok (.hx rtoad, getBaks rg ⟨rega.i, rega.d⟩)

/-- The toad parse and bounds check concluding `Tever.rotate` (source lines
1019-1029). -/
def Tever.rotateToad (serder : KED) (baks cuts adds : List String) :
    Except Err (Nat × List String × List String × List String) :=
  match serder.bt with
  | none => .error .keyErr
  | some bts =>
    match pyIntHex bts with
    | .error e => .error e
    | .ok toad =>
      if baks ≠ [] then
        if toad < 1 ∨ baks.length < toad then .error .validation
        else .ok (toad, baks, cuts, adds)
      else
        if toad ≠ 0 then .error .validation
        else .ok (toad, baks, cuts, adds)

/-- The backer-set recomputation of `Tever.rotate` (source lines 985-1017):
duplicate, subset, intersection and cardinality checks, then the new ordered
backer list. -/
def Tever.rotateSets (tv : Tever) (serder : KED) :
    Except Err (Nat × List String × List String × List String) :=
  let witset := osetL tv.baks
  match serder.br with
  | none => .error .keyErr
  | some cuts =>
    let cutset := osetL cuts
    if cutset.length ≠ cuts.length then .error .validation
    else if osetInter witset cutset ≠ cutset then .error .validation
    else
      match serder.ba with
      | none => .error .keyErr
      | some adds =>
        let addset := osetL adds
        if addset.length ≠ adds.length then .error .validation
        else if osetInter cutset addset ≠ [] then .error .validation
        else if osetInter witset addset ≠ [] then .error .validation
        else
          let baks := osetUnion (osetDiff witset cutset) addset
          if (baks.length : Int) ≠
              (tv.baks.length : Int) - cuts.length + adds.length then
            .error .validation
          else Tever.rotateToad serder baks cuts adds

/-- `Tever.rotate`: validate a registry rotation and compute the new
`(toad, baks, cuts, adds)` (source lines 952-1029); pure, no store writes.
The prior-digest, prefix and sequence-number gates (lines 967-983) are
followed by the backer-set recomputation. -/
def Tever.rotate (tv : Tever) (serder : KED) (sn : Nat) :
    Except Err (Nat × List String × List String × List String) :=
  match serder.p with
  | none => .error .keyErr
  | some dig =>
    if serder.i ≠ tv.prefixer then .error .validation
    else if sn ≠ tv.sn + 1 then .error .validation
    else if digest tv.serder ≠ dig then .error .validation
    else Tever.rotateSets tv serder

/-- `Tever.issue`: process `iss`/`bis` (source lines 1031-1098). -/
def Tever.issue (tv : Tever) (db : Kels) (rg : Regs) (cs : List Cue)
    (serder : KED) (seqner : Nat) (diger : Dg) (sn : Nat)
    (bigers : List Biger) : Regs × List Cue × Option Err :=
  let vci := nsKey tv.prefixer serder.i
  let labelsOk : Bool :=
    if serder.t = .iss then serder.ri.isSome && serder.dt.isSome
    else serder.ra.isSome && serder.dt.isSome
  if !labelsOk then (rg, cs, some .validation)
  else if serder.t = .iss then
    if tv.noBackers = false then (rg, cs, some .validation)
    else
      match serder.ri with
      | none => (rg, cs, some .keyErr)
      | some regi =>
        if regi ≠ tv.prefixer then (rg, cs, some .validation)
        else if ¬ tv.verifyAnchor db serder seqner diger then
          let er := Tever.escrowALEvent rg serder seqner diger [] []
          let cs := if er.2 then cs ++ [Cue.query tv.pre seqner] else cs
          (er.1, cs, some .missingAnchor)
        else
          (Tever.logEvent rg vci sn serder seqner diger [] [], cs, none)
  else if serder.t = .bis then
    if tv.noBackers = true then (rg, cs, some .validation)
    else
      match tv.getBackerState rg serder with
      | .error e => (rg, cs, some e)
      | .ok (rtoad, baks) =>
        match tv.valAnchorBigs db rg cs serder seqner diger bigers rtoad baks with
        | (rg, cs, .error e) => (rg, cs, some e)
        | (rg, cs, .ok vbigers) =>
          (Tever.logEvent rg vci sn serder seqner diger vbigers [], cs, none)
  else (rg, cs, some .validation)

/-- `Tever.revoke`: process `rev`/`brv` (source lines 1100-1174).  The prior
event is looked up before the ilk dispatch.  An absent prior index entry is
modelled (from the spec; `dbing.dgKey`/`viring.getTel` are not under `src/`)
as the lookup of the issuance event failing, raising the source's
"revoke without issue" validation error. -/
def Tever.revoke (tv : Tever) (db : Kels) (rg : Regs) (cs : List Cue)
    (serder : KED) (seqner : Nat) (diger : Dg) (sn : Nat)
    (bigers : List Biger) : Regs × List Cue × Option Err :=
  let labelsOk : Bool :=
    if serder.t = .rev then serder.p.isSome && serder.dt.isSome
    else serder.ra.isSome && serder.p.isSome && serder.dt.isSome
  if !labelsOk then (rg, cs, some .validation)
  else
    let vci := nsKey tv.prefixer serder.i
    match getTel rg ⟨vci, sn - 1⟩ with
    | none => (rg, cs, some .validation)
    | some dig =>
      match getTvt rg ⟨vci, dig⟩ with
      | none => (rg, cs, some .validation)
      | some iserder =>
        match serder.p with
        | none => (rg, cs, some .keyErr)
        | some pd =>
          if digest iserder ≠ pd then (rg, cs, some .validation)
          else if serder.t = .rev then
            if tv.noBackers = false then (rg, cs, some .validation)
            else if ¬ tv.verifyAnchor db serder seqner diger then
              let er := Tever.escrowALEvent rg serder seqner diger [] []
              let cs := if er.2 then cs ++ [Cue.query tv.pre seqner] else cs
              (er.1, cs, some .missingAnchor)
            else
              (Tever.logEvent rg vci sn serder seqner diger [] [], cs, none)
          else if serder.t = .brv then
            if tv.noBackers = true then (rg, cs, some .validation)
            else
              match tv.getBackerState rg serder with
              | .error e => (rg, cs, some e)
              | .ok (rtoad, baks) =>
                match tv.valAnchorBigs db rg cs serder seqner diger bigers rtoad baks with
                | (rg, cs, .error e) => (rg, cs, some e)
                | (rg, cs, .ok vbigers) =>
                  (Tever.logEvent rg vci sn serder seqner diger vbigers [], cs, none)
          else (rg, cs, some .validation)

/-- `Tever.state`: rebuild the current state notice (source lines 782-822,
through the `state(...)` constructor checks of lines 406-521; wall-clock
timestamps are external and not carried).  An absent anchor couple fails as
the source's `bytearray(None)` does. -/
def Tever.stateTSN (tv : Tever) (rg : Regs) : Except Err TSN :=
  let cnfg : List String := if tv.noBackers then ["NB"] else []
  match getAnc rg ⟨tv.regk.getD "", digest tv.serder⟩ with
  | none => .error .typeErr
  | some couple =>
    if tv.ilk ≠ .vcp ∧ tv.ilk ≠ .vrt then .error .valueErr
    else
      let witset := osetL tv.baks
      if witset.length ≠ tv.baks.length then .error .valueErr
      else if (if witset ≠ [] then tv.toad < 1 ∨ witset.length < tv.toad
               else tv.toad ≠ 0) then .error .valueErr
      else if (osetL tv.cuts).length ≠ tv.cuts.length then .error .valueErr
      else if (osetL tv.adds).length ≠ tv.adds.length then .error .valueErr
      else .ok { i := tv.regk.getD "", s := tv.sn, d := digest tv.serder,
                 ii := tv.pre, et := tv.ilk, a := couple, bt := tv.toad,
                 br := tv.cuts, ba := tv.adds, b := tv.baks, c := cnfg }

/-- `Tever.update`: process registry non-inception events (source lines
887-949).  Returns the (possibly mutated) in-memory state, the store, the
cues and the raised error if any; on the `vrt` path the in-memory fields are
replaced between `valAnchorBigs` and `logEvent` exactly as in the source. -/
def Tever.update (tv : Tever) (db : Kels) (rg : Regs) (cs : List Cue)
    (serder : KED) (seqner : Nat) (diger : Dg) (bigers : List Biger) :
    Tever × Regs × List Cue × Option Err :=
  let ilk := serder.t
  let icp := ilk = .iss ∨ ilk = .bis
  match validateSN serder.s (decide icp) with
  | .error e => (tv, rg, cs, some e)
  | .ok sn =>
    if ilk = .vrt then
      if tv.noBackers = true then (tv, rg, cs, some .validation)
      else
        match tv.rotate serder sn with
        | .error e => (tv, rg, cs, some e)
        | .ok (toad, baks, cuts, adds) =>
          match tv.valAnchorBigs db rg cs serder seqner diger bigers
              (.num toad) baks with
          | (rg, cs, .error e) => (tv, rg, cs, some e)
          | (rg, cs, .ok vbigers) =>
            let tv2 : Tever :=
              { tv with
                sn := sn, serder := serder, ilk := ilk,
                toad := toad, baks := baks, cuts := cuts, adds := adds }
            let rg := Tever.logEvent rg tv2.prefixer sn serder seqner diger
              vbigers tv2.baks
            match Tever.stateTSN tv2 rg with
            | .error e => (tv2, rg, cs, some e)
            | .ok tsn => (tv2, statesPin rg (tv2.regk.getD "") tsn, cs, none)
    else if ilk = .iss ∨ ilk = .bis then
      match tv.issue db rg cs serder seqner diger sn bigers with
      | (rg, cs, err) => (tv, rg, cs, err)
    else if ilk = .rev ∨ ilk = .brv then
      match tv.revoke db rg cs serder seqner diger sn bigers with
      | (rg, cs, err) => (tv, rg, cs, err)
    else (tv, rg, cs, some .validation)

/-! ## Tevery — dispatcher and escrow driver -/

/-- The state owned by a `Tevery`: the KEL handle, the registry store, the
cached `tevers`, the own-registry restriction `regk` with its `local` flag
(`loc`), and the cue deck. -/
structure TvySt where
  db : Kels
  rg : Regs
  tevers : List (String × Tever)
  regk : Option String
  loc : Bool
  cues : List Cue
deriving DecidableEq, Repr

/-- `Tevery.registryKey` (source lines 1641-1661). -/
def registryKey (serder : KED) : Except Err String :=
  match serder.t with
  | .vcp => .ok serder.i
  | .vrt => .ok serder.i
  | .iss | .rev =>
    match serder.ri with
    | none => .error .keyErr
    | some ri => .ok ri
  | .bis | .brv =>
    match serder.ra with
    | none => .error .keyErr
    | some rega => .ok rega.i
  | _ => .error .validation

/-- `Tever.vcSn`: current sequence number of a credential, from the count of
its TEL entries (source lines 1216-1231). -/
def Tever.vcSn (tv : Tever) (rg : Regs) (vcpre : String) : Option Nat :=
  let cnt := cntTels rg (nsKey tv.prefixer vcpre)
  if cnt = 0 then none else some (cnt - 1)

/-- `teverIncept`: `Tever.__init__` on the `serder` path — ilk and label
checks, `incept`, `config`, `valAnchorBigs`, `logEvent` at sn 0, the `regk`
re-pin and the state snapshot (source lines 669-743, 824-885). -/
def teverIncept (db : Kels) (rg : Regs) (cs : List Cue) (regk : Option String)
    (loc : Bool) (serder : KED) (seqner : Nat) (diger : Dg)
    (bigers : List Biger) : Regs × List Cue × Except Err Tever :=
  if serder.t ≠ .vcp then (rg, cs, .error .validation)
  else if serder.bt = none ∨ serder.b = none ∨ serder.c = none then
    (rg, cs, .error .validation)
  else
    match serder.ii with
    | none => (rg, cs, .error .keyErr)
    | some pre =>
      if ¬ saidVerify serder then (rg, cs, .error .validation)
      else
        match validateSN serder.s true with
        | .error e => (rg, cs, .error e)
        | .ok _ =>
          match serder.b with
          | none => (rg, cs, .error .keyErr)
          | some baks =>
            if (osetL baks).length ≠ baks.length then (rg, cs, .error .validation)
            else
              match serder.bt with
              | none => (rg, cs, .error .keyErr)
              | some bts =>
                match pyIntHex bts with
                | .error e => (rg, cs, .error e)
                | .ok toad =>
                  if (if baks ≠ [] then toad < 1 ∨ baks.length < toad
                      else toad ≠ 0) then
                    (rg, cs, .error .validation)
                  else
                    let noB := decide ("NB" ∈ serder.c.getD [])
                    let tv : Tever :=
                      { pre := pre, prefixer := serder.i, regk := regk,
                        loc := loc, sn := 0, serder := serder, ilk := .vcp,
                        toad := toad, baks := baks, cuts := [], adds := [],
                        noBackers := noB }
                    match tv.valAnchorBigs db rg cs serder seqner diger bigers
                        (.num toad) baks with
                    | (rg, cs, .error e) => (rg, cs, .error e)
                    | (rg, cs, .ok vbigers) =>
                      let rg := Tever.logEvent rg tv.prefixer 0 serder seqner
                        diger vbigers tv.baks
                      let tv := { tv with regk := some tv.prefixer }
                      match Tever.stateTSN tv rg with
                      | .error e => (rg, cs, .error e)
                      | .ok tsn => (statesPin rg tv.prefixer tsn, cs, .ok tv)

/-- `Tevery.escrowOOEvent`: escrow an out-of-order TEL event (source lines
1664-1687). -/
def escrowOOEvent (rg : Regs) (serder : KED) (seqner : Nat) (diger : Dg) :
    Regs :=
  let key : DgK := ⟨serder.i, digest serder⟩
  let rg := putTvt rg key serder
  let rg := putAnc rg key (seqner, diger)
  putOot rg ⟨serder.i, serder.snat⟩ (digest serder)

/-- The body of `Tevery.processEvent` after the prefix, registry-key,
sequence-number and locality gates (source lines 1547-1597). -/
def processGated (st : TvySt) (regk pre : String) (sn : Nat) (serder : KED)
    (seqner : Nat) (diger : Dg) (wigers : List Biger) : TvySt × Option Err :=
  match alookup st.tevers regk with
  | none =>
    if serder.t = .vcp then
      match teverIncept st.db st.rg st.cues st.regk st.loc serder seqner diger
          wigers with
      | (rg, cs, .error e) => ({ st with rg := rg, cues := cs }, some e)
      | (rg, cs, .ok tv) =>
        ({ st with rg := rg, cues := cs, tevers := apin st.tevers regk tv },
          none)
    else
      ({ st with rg := escrowOOEvent st.rg serder seqner diger },
        some .outOfOrder)
  | some tv =>
    if serder.t = .vcp then (st, some .likelyDuplicitous)
    else
      let sno := if serder.t = .vrt then tv.sn + 1
        else match tv.vcSn st.rg pre with
          | none => 0
          | some esn => esn + 1
      if sn > sno then
        ({ st with rg := escrowOOEvent st.rg serder seqner diger },
          some .outOfOrder)
      else if sn = sno then
        match tv.update st.db st.rg st.cues serder seqner diger wigers with
        | (tv2, rg, cs, err) =>
          ({ st with rg := rg, cues := cs, tevers := apin st.tevers regk tv2 },
            err)
      else (st, some .likelyDuplicitous)

/-- `Tevery.processEvent` (source lines 1505-1597): the prefix gate, registry
key extraction, sequence-number validation and the locality gate, then
`processGated`. -/
def processEvent (st : TvySt) (serder : KED) (seqner : Nat) (diger : Dg)
    (wigers : List Biger) : TvySt × Option Err :=
  if ¬ validPre serder.i then (st, some .validation)
  else
    match registryKey serder with
    | .error e => (st, some e)
    | .ok regk =>
      let inceptive := serder.t = .vcp ∨ serder.t = .iss ∨ serder.t = .bis
      match validateSN serder.s (decide inceptive) with
      | .error e => (st, some e)
      | .ok sn =>
        match st.regk with
        | some myregk =>
          if st.loc then
            if myregk ≠ regk then (st, some .valueErr)
            else processGated st regk serder.i sn serder seqner diger wigers
          else
            if myregk = regk then (st, some .valueErr)
            else processGated st regk serder.i sn serder seqner diger wigers
        | none => processGated st regk serder.i sn serder seqner diger wigers

/-- One iteration of the anchorless-escrow drain (source lines 1730-1783):
reload the event, signatures and anchor couple, reprocess, and remove the
entry unless the failure is still `missing-anchor`. -/
def unescrowTae (st : TvySt) (ent : SnK × Dg) : TvySt :=
  let dgkey : DgK := ⟨ent.1.pre, ent.2⟩
  match getTvt st.rg dgkey with
  | none => { st with rg := delTae st.rg ent.1 }
  | some tserder =>
    let bigers := getTibs st.rg dgkey
    match getAnc st.rg dgkey with
    | none => { st with rg := delTae st.rg ent.1 }
    | some couple =>
      match processEvent st tserder couple.1 couple.2 bigers with
      | (st2, some .missingAnchor) => st2
      | (st2, some _) => { st2 with rg := delTae st2.rg ent.1 }
      | (st2, none) => { st2 with rg := delTae st2.rg ent.1 }

/-- `Tevery.processEscrowAnchorless` (source lines 1718-1783): drain the
`tae` escrow, iterating over a snapshot of its entries. -/
def processEscrowAnchorless (st : TvySt) : TvySt :=
  st.rg.tae.foldl unescrowTae st

/-- `Tevery.processEscrowOutOfOrders` (source lines 1703-1715): the source
iterates the `oot` entries and only prints them — a stub that changes no
state and reprocesses nothing. -/
def processEscrowOutOfOrders (st : TvySt) : TvySt := st

/-- `Tevery.processEscrows` (source lines 1690-1701). -/
def processEscrows (st : TvySt) : TvySt :=
  processEscrowOutOfOrders (processEscrowAnchorless st)

/-- States reachable by a `Tevery` from an empty registry store: any sequence
of `processEvent` and `processEscrows` calls over a fixed KEL. -/
inductive Reach : TvySt → Prop where
  | init (db : Kels) (regk : Option String) (loc : Bool) :
      Reach { db := db, rg := {}, tevers := [], regk := regk, loc := loc,
              cues := [] }
  | step (st : TvySt) (serder : KED) (seqner : Nat) (diger : Dg)
      (wigers : List Biger) : Reach st →
      Reach (processEvent st serder seqner diger wigers).1
  | drain (st : TvySt) : Reach st → Reach (processEscrows st)

/-! ## Event constructors -/

/-- The `toad` parameter of the `incept`/`rotate` constructors: omitted
(`None`), an int, or a hex string. -/
inductive ToadArg where
  | omitted
  | num (n : Int)
  | hs (s : String)
deriving DecidableEq, Repr

/-- The event body built by `incept` (source lines 107-121): `i` is the
derived self-addressing identifier over the body with `i` blank. -/
def inceptBody (pre : String) (cnfg baks : List String) (toadN : Nat) : KED :=
  let ked : KED := { t := .vcp, i := "", ii := some pre, s := natToHex 0,
                     c := some cnfg, bt := some (natToHex toadN),
                     b := some baks }
  { ked with i := derivePre ked }

/-- The toad bounds check and body construction shared by `incept`'s
integer and defaulted branches (source lines 97-121). -/
def inceptKed (pre : String) (cnfg baks : List String) (toadN : Int) :
    Except Err KED :=
  if baks ≠ [] then
    if toadN < 1 ∨ (baks.length : Int) < toadN then .error .valueErr
    else .ok (inceptBody pre cnfg baks toadN.toNat)
  else if toadN ≠ 0 then .error .valueErr
  else .ok (inceptBody pre cnfg baks 0)

/-- The `incept` registry-inception constructor (source lines 44-121).  On a
string `toad` the source applies the integer format code
`"{:x}".format(toad)` to a `str`, which raises `ValueError` before any event
body is built. -/
def incept (pre : String) (toad : ToadArg)
    (baks0 cnfg0 : Option (List String)) : Except Err KED :=
  let cnfg := cnfg0.getD []
  let baks := baks0.getD []
  if "NB" ∈ cnfg ∧ baks.length > 0 then .error .valueErr
  else if (osetL baks).length ≠ baks.length then .error .valueErr
  else
    match toad with
    | .hs _ => .error .valueErr
    | .omitted =>
      let toadN : Int := if baks.isEmpty then 0 else (ample baks.length : Int)
      inceptKed pre cnfg baks toadN
    | .num n => inceptKed pre cnfg baks n

/-- The event body built by `rotate` (source lines 209-219). -/
def rotateBody (regk : String) (dig : Dg) (sn : Nat) (cuts adds : List String)
    (toadN : Nat) : KED :=
  { t := .vrt, i := regk, p := some dig, s := natToHex sn,
    bt := some (natToHex toadN), br := some cuts, ba := some adds }

/-- The toad bounds check and body construction shared by `rotate`'s integer
and defaulted branches (source lines 200-219). -/
def rotateKed (regk : String) (dig : Dg) (sn : Nat)
    (cuts adds newbakset : List String) (toadN : Int) : Except Err KED :=
  if newbakset ≠ [] then
    if toadN < 1 ∨ (newbakset.length : Int) < toadN then .error .valueErr
    else .ok (rotateBody regk dig sn cuts adds toadN.toNat)
  else if toadN ≠ 0 then .error .valueErr
  else .ok (rotateBody regk dig sn cuts adds 0)

/-- The `rotate` registry-rotation constructor (source lines 124-219); the
string-`toad` branch raises `ValueError` as in `incept`. -/
def rotate (regk : String) (dig : Dg) (sn : Nat) (toad : ToadArg)
    (baks0 cuts0 adds0 : Option (List String)) : Except Err KED :=
  if sn < 1 then .error .valueErr
  else
    let baks := baks0.getD []
    let bakset := osetL baks
    if bakset.length ≠ baks.length then .error .valueErr
    else
      let cuts := cuts0.getD []
      let cutset := osetL cuts
      if cutset.length ≠ cuts.length then .error .valueErr
      else if osetInter bakset cutset ≠ cutset then .error .valueErr
      else
        let adds := adds0.getD []
        let addset := osetL adds
        if addset.length ≠ adds.length then .error .valueErr
        else if osetInter cutset addset ≠ [] then .error .valueErr
        else if osetInter bakset addset ≠ [] then .error .valueErr
        else
          let newbakset := osetUnion (osetDiff bakset cutset) addset
          if (newbakset.length : Int) ≠
              (baks.length : Int) - cuts.length + adds.length then
            .error .valueErr
          else
            match toad with
            | .hs _ => .error .valueErr
            | .omitted =>
              let toadN : Int :=
                if newbakset.isEmpty then 0 else (ample newbakset.length : Int)
              rotateKed regk dig sn cuts adds newbakset toadN
            | .num n => rotateKed regk dig sn cuts adds newbakset n

/-- The query mapping assembled by the `query` constructor (source lines
618-627) before delegation to the external KEL query builder.  Each datetime
field is `Option (Option String)`: the outer layer models presence of the
dictionary key, the inner one the (possibly `None`) value stored there. -/
structure QryMap where
  i : String
  ri : String
  dt : Option (Option String) := none
  dta : Option (Option String) := none
  dtb : Option (Option String) := none
deriving DecidableEq, Repr

/-- The `query` constructor's mapping construction (source lines 584-634).
Note: the source assigns `qry["dta"] = dt` and `qry["dtb"] = dt`. -/
def query (regk vcid : String) (dt dta dtb : Option String) : QryMap :=
  let qry : QryMap := { i := vcid, ri := regk }
  let qry := if dt.isSome then { qry with dt := some dt } else qry
  let qry := if dta.isSome then { qry with dta := some dt } else qry
  let qry := if dtb.isSome then { qry with dtb := some dt } else qry
  qry

/-! ## The operation order of `Tever.update`'s `vrt` branch

A transliteration of the statement order of source lines 910-940 (with
`logEvent`'s writes, lines 1252-1263, inlined): used to state in which order
validation, in-memory mutation and store writes happen. -/

/-- One abstract operation of the `vrt` branch of `Tever.update`. -/
inductive UpdOp where
  | valSN | valRotate | valAnchorBigs
  | setSn | setSerder | setIlk | setToad | setBaks | setCuts | setAdds
  | writeAnc | writeTibs | writeBaks | writeTets | writeTvt | writeTel
  | pinState
deriving DecidableEq, Repr

/-- The statement order of `Tever.update`'s `vrt` branch: `validateSN` (line
910), `rotate` (916), `valAnchorBigs` (918), the seven field assignments
(925-931), the `logEvent` writes (933-939, expanded per lines 1252-1263) and
the state pin (940). -/
def vrtUpdateOps : List UpdOp :=
  [.valSN, .valRotate, .valAnchorBigs,
   .setSn, .setSerder, .setIlk, .setToad, .setBaks, .setCuts, .setAdds,
   .writeAnc, .writeTibs, .writeBaks, .writeTets, .writeTvt, .writeTel,
   .pinState]

/-- Operations that mutate the in-memory `Tever` fields. -/
def UpdOp.isMutation : UpdOp → Bool
  | .setSn | .setSerder | .setIlk | .setToad | .setBaks | .setCuts
  | .setAdds => true
  | _ => false

/-- Operations that write to the registry store. -/
def UpdOp.isStoreWrite : UpdOp → Bool
  | .writeAnc | .writeTibs | .writeBaks | .writeTets | .writeTvt | .writeTel
  | .pinState => true
  | _ => false

/-- Validation operations (each may raise). -/
def UpdOp.isValidation : UpdOp → Bool
  | .valSN | .valRotate | .valAnchorBigs => true
  | _ => false

/-- No store write occurs after an in-memory mutation — the ordering a
"mutate only after the store writes succeeded" discipline would give. -/
def noWriteAfterMutation (ops : List UpdOp) : Bool :=
  (List.range ops.length).all (fun i =>
    (List.range ops.length).all (fun j =>
      !(decide (i < j) && (ops.getD i .valSN).isMutation &&
        (ops.getD j .valSN).isStoreWrite)))

/-- No validation occurs after an in-memory mutation: mutations happen only
once every validation step has succeeded. -/
def noValidationAfterMutation (ops : List UpdOp) : Bool :=
  (List.range ops.length).all (fun i =>
    (List.range ops.length).all (fun j =>
      !(decide (i < j) && (ops.getD i .valSN).isMutation &&
        (ops.getD j .valSN).isValidation)))

/-! ## Concrete fixtures for witnesses and counterexamples

A backerless registry (issuer `P`, registry `fxReg`, credential `V`) with
its anchoring KEL events, and a backer-capable registry `RB` (issuer `P2`)
used to exercise the rotation path. -/

/-- Backerless registry inception event (`c = ["NB"]`). -/
def fxVcp : KED :=
  let k : KED := { t := .vcp, i := "", ii := some "P", s := "0",
                   c := some ["NB"], bt := some "0", b := some [] }
  { k with i := derivePre k }

/-- The derived registry identifier. -/
def fxReg : String := fxVcp.i

/-- Issuance of credential `V` under `fxReg`. -/
def fxIss : KED :=
  { t := .iss, i := "V", s := "0", ri := some fxReg, dt := some "T1" }

/-- KEL event anchoring `fxVcp` at sn 1. -/
def fxKel1 : KelKed :=
  { i := "P", s := "1", a := some [⟨fxReg, "0", digest fxVcp⟩], x := "k1" }

/-- KEL event anchoring `fxIss` at sn 2. -/
def fxKel2 : KelKed :=
  { i := "P", s := "2", a := some [⟨"V", "0", digest fxIss⟩], x := "k2" }

/-- The KEL store for the backerless scenario. -/
def fxDb : Kels :=
  { kes := [(⟨"P", 1⟩, kelDigest fxKel1), (⟨"P", 2⟩, kelDigest fxKel2)],
    evts := [(⟨"P", kelDigest fxKel1⟩, fxKel1),
             (⟨"P", kelDigest fxKel2⟩, fxKel2)] }

/-- An initial, empty `Tevery` state over `fxDb`. -/
def fxSt0 : TvySt :=
  { db := fxDb, rg := {}, tevers := [], regk := none, loc := false,
    cues := [] }

/-- Inception body of the backer-capable registry `RB`. -/
def fxVcpB : KED :=
  { t := .vcp, i := "RB", ii := some "P2", s := "0", c := some [],
    bt := some "0", b := some [] }

/-- An already-incepted `Tever` for `RB` at sn 0. -/
def fxTvB : Tever :=
  { pre := "P2", prefixer := "RB", regk := some "RB", loc := false, sn := 0,
    serder := fxVcpB, ilk := .vcp, toad := 0, baks := [], cuts := [],
    adds := [], noBackers := false }

/-- A rotation of `RB` to sn 1 (no cuts, no adds). -/
def fxVrt : KED :=
  { t := .vrt, i := "RB", s := "1", p := some (digest fxVcpB),
    bt := some "0", br := some [], ba := some [] }

/-- KEL event anchoring `fxVrt` at sn 5 of `P2`. -/
def fxKel3 : KelKed :=
  { i := "P2", s := "5", a := some [⟨"RB", "1", digest fxVrt⟩], x := "k3" }

/-- The KEL store for the `RB` scenario. -/
def fxDbB : Kels :=
  { kes := [(⟨"P2", 5⟩, kelDigest fxKel3)],
    evts := [(⟨"P2", kelDigest fxKel3⟩, fxKel3)] }

/-- An already-incepted backerless `Tever` for `fxReg` at sn 0. -/
def fxTvNB : Tever :=
  { pre := "P", prefixer := fxReg, regk := some fxReg, loc := false, sn := 0,
    serder := fxVcp, ilk := .vcp, toad := 0, baks := [], cuts := [],
    adds := [], noBackers := true }

/-- A registry store with the `iss` of `V` already parked anchorless. -/
def fxRgC4 : Regs := { tae := [(⟨"V", 0⟩, digest fxIss)] }

/-- A rotation of `RB` to sn 5, out of order against tip sn 0. -/
def fxVrt5 : KED :=
  { t := .vrt, i := "RB", s := "5", p := some (digest fxVcpB),
    bt := some "0", br := some [], ba := some [] }

/-- A backer revocation of `V`, invalid against the backerless `fxReg`. -/
def fxBrv : KED :=
  { t := .brv, i := "V", s := "1", p := some (digest fxIss),
    ra := some ⟨fxReg, "0", digest fxVcp⟩, dt := some "T2" }

/-! ## Claim C5: registry rotation backer-set invariants -/

/-- Inception body of a three-backer registry `R3` (toad 2). -/
def fxVcp3 : KED :=
  { t := .vcp, i := "R3", ii := some "P3", s := "0", c := some [],
    bt := some "2", b := some ["B1", "B2", "B3"] }

/-- An already-incepted `Tever` for `R3` at sn 0. -/
def fxTv3 : Tever :=
  { pre := "P3", prefixer := "R3", regk := some "R3", loc := false, sn := 0,
    serder := fxVcp3, ilk := .vcp, toad := 2, baks := ["B1", "B2", "B3"],
    cuts := [], adds := [], noBackers := false }

/-- A rotation of `R3` cutting `B2` and adding `B4`. -/
def fxVrt3 : KED :=
  { t := .vrt, i := "R3", s := "1", p := some (digest fxVcp3),
    bt := some "2", br := some ["B2"], ba := some ["B4"] }

/-! ## Claim C7: out-of-order recovery -/

/-- State after submitting the `iss` of `V` before the `vcp` of its
registry. -/
def fxStA : TvySt := (processEvent fxSt0 fxIss 2 (kelDigest fxKel2) []).1

/-- State after then submitting the `vcp`. -/
def fxStB : TvySt := (processEvent fxStA fxVcp 1 (kelDigest fxKel1) []).1

/-! ## Hash-chain continuity: store predicates and write shapes -/

/-- Every stored event body sits under the key of its own digest: all four
`putTvt` writers in the source key the raw event by `dgKey(pre, serder.dig)`. -/
def tvtKeyed (rg : Regs) : Prop :=
  ∀ k e, getTvt rg k = some e → k.dig = digest e

/-- Every first-seen index entry has its event body stored under the indexed
digest. -/
def telBacked (rg : Regs) : Prop :=
  ∀ p n d, getTel rg (SnK.mk p n) = some d →
    (getTvt rg (DgK.mk p d)).isSome = true

/-- The hash-chain property over the store: every first-seen event at a
positive sequence number carries `p` equal to the index entry one below. -/
def chainOk (rg : Regs) : Prop :=
  ∀ p n d e, getTel rg (SnK.mk p (n + 1)) = some d →
    getTvt rg (DgK.mk p d) = some e →
    ∃ dp, getTel rg (SnK.mk p n) = some dp ∧ e.p = some dp

/-- The effect of one create-only `tvt` write at `⟨pre, digest e⟩`: old
entries survive, other keys are untouched, and the written key holds either
its old value or `e`. -/
structure TvtPut (rg rg' : Regs) (pre : String) (e : KED) : Prop where
  mono : ∀ k v, getTvt rg k = some v → getTvt rg' k = some v
  off : ∀ k, k ≠ DgK.mk pre (digest e) → getTvt rg' k = getTvt rg k
  atk : ∀ v, getTvt rg' (DgK.mk pre (digest e)) = some v →
    getTvt rg (DgK.mk pre (digest e)) = some v ∨ v = e

/-- The effect of one create-only `tel` write at `⟨pre, sn⟩` holding `d0`. -/
structure TelPut (rg rg' : Regs) (pre : String) (sn : Nat) (d0 : Dg) : Prop where
  mono : ∀ k v, getTel rg k = some v → getTel rg' k = some v
  off : ∀ k, k ≠ SnK.mk pre sn → getTel rg' k = getTel rg k
  atk : ∀ d, getTel rg' (SnK.mk pre sn) = some d →
    getTel rg (SnK.mk pre sn) = some d ∨ d = d0
  put : getTel rg (SnK.mk pre sn) = none →
    getTel rg' (SnK.mk pre sn) = some d0

/-- The first-seen index is untouched. -/
def telSame (rg rg' : Regs) : Prop := ∀ k, getTel rg' k = getTel rg k

/-- Escrow shape: processing wrote at most the event body, never the
first-seen index. -/
def EStep (rg rg' : Regs) (pre : String) (e : KED) : Prop :=
  TvtPut rg rg' pre e ∧ telSame rg rg'

/-- Log shape: processing wrote the event body and its first-seen index entry
at `⟨pre, sn⟩` (`logEvent`). -/
def LStep (rg rg' : Regs) (pre : String) (e : KED) (sn : Nat) : Prop :=
  TvtPut rg rg' pre e ∧ TelPut rg rg' pre sn (digest e) ∧
    (getTvt rg' (DgK.mk pre (digest e))).isSome = true

/-! ## The state-level inductive invariant -/

/-- Per-cached-`Tever` coherence: each is cached under its own registry
prefix, a valid identifier, with the first-seen index tip at its sequence
number and no index entries above it. -/
def tvCoh (st : TvySt) : Prop :=
  ∀ k tv, alookup st.tevers k = some tv →
    tv.prefixer = k ∧ validPre k = true ∧
    getTel st.rg (SnK.mk k tv.sn) = some (digest tv.serder) ∧
    ∀ m, tv.sn < m → getTel st.rg (SnK.mk k m) = none

/-- Valid registry identifiers with no cached verifier have an empty
management TEL. -/
def telRegE (st : TvySt) : Prop :=
  ∀ k, validPre k = true → alookup st.tevers k = none →
    ∀ n, getTel st.rg (SnK.mk k n) = none

/-- The inductive invariant of a `Tevery`: the store predicates plus cache
coherence. -/
def TvyInv (st : TvySt) : Prop :=
  tvtKeyed st.rg ∧ telBacked st.rg ∧ chainOk st.rg ∧ tvCoh st ∧ telRegE st

/-! ## Fixtures for the hash-chain witness: a registry taken through
`vcp` then `vrt` via `processEvent` over a local `Tevery` -/

/-- Inception of a backer-capable registry with an empty initial backer
list (issuer `PC`). -/
def fxVcpC : KED :=
  let k : KED := { t := .vcp, i := "", ii := some "PC", s := "0",
                   c := some [], bt := some "0", b := some [] }
  { k with i := derivePre k }

/-- The derived registry identifier. -/
def fxRegC : String := fxVcpC.i

/-- Rotation adding backer `B4` at sn 1, chained to the inception. -/
def fxVrtC : KED :=
  { t := .vrt, i := fxRegC, s := "1", p := some (digest fxVcpC),
    bt := some "1", br := some [], ba := some ["B4"] }

/-- KEL event anchoring `fxVcpC` at sn 1 of `PC`. -/
def fxK1C : KelKed :=
  { i := "PC", s := "1", a := some [⟨fxRegC, "0", digest fxVcpC⟩],
    x := "kc1" }

/-- KEL event anchoring `fxVrtC` at sn 2 of `PC`. -/
def fxK2C : KelKed :=
  { i := "PC", s := "2", a := some [⟨fxRegC, "1", digest fxVrtC⟩],
    x := "kc2" }

/-- The KEL store for the chained-registry scenario. -/
def fxDbC2 : Kels :=
  { kes := [(⟨"PC", 1⟩, kelDigest fxK1C), (⟨"PC", 2⟩, kelDigest fxK2C)],
    evts := [(⟨"PC", kelDigest fxK1C⟩, fxK1C),
             (⟨"PC", kelDigest fxK2C⟩, fxK2C)] }

/-- An initial, empty local `Tevery` state over `fxDbC2`. -/
def fxStC0 : TvySt :=
  { db := fxDbC2, rg := {}, tevers := [], regk := none, loc := true,
    cues := [] }

/-- State after the accepted inception. -/
def fxStC1 : TvySt := (processEvent fxStC0 fxVcpC 1 (kelDigest fxK1C) []).1

/-- State after the accepted rotation. -/
def fxStC2 : TvySt := (processEvent fxStC1 fxVrtC 2 (kelDigest fxK2C) []).1

/-- A registry store holding the logged issuance of `V` under `fxReg`. -/
def fxRgC2r : Regs :=
  { tel := [(⟨nsKey fxReg "V", 0⟩, digest fxIss)],
    tvt := [(⟨nsKey fxReg "V", digest fxIss⟩, fxIss)] }

/-- A backer revocation of `V` whose `p` points at the wrong prior event. -/
def fxBrvBad : KED := { fxBrv with p := some (digest fxVcp) }

theorem encOStr_inj : Function.Injective encOStr := by
  intro a b h
  cases a <;> cases b <;> simp [encOStr] at h <;> simp [h]

theorem encList_inj : Function.Injective encList := by
  intro a b h
  induction a generalizing b with
  | nil =>
    cases b with
    | nil => rfl
    | cons y ys => simp [encList] at h
  | cons x xs ih =>
    cases b with
    | nil => simp [encList] at h
    | cons y ys =>
      simp only [encList, Dg.node.injEq, Dg.leaf.injEq] at h
      rw [h.1, ih h.2]

theorem encOList_inj : Function.Injective encOList := by
  intro a b h
  cases a <;> cases b
  · rfl
  · simp [encOList] at h
  · simp [encOList] at h
  · simp only [encOList, Dg.node.injEq] at h
    exact congrArg some (encList_inj h.1)

theorem encODg_inj : Function.Injective encODg := by
  intro a b h
  cases a <;> cases b <;> simp [encODg] at h <;> simp [h]

theorem encORa_inj : Function.Injective encORa := by
  intro a b h
  cases a <;> cases b <;> simp [encORa] at h
  · rfl
  · next x y => cases x; cases y; simp_all

theorem ilkStr_inj : Function.Injective ilkStr := by
  intro a b h
  cases a <;> cases b <;> simp [ilkStr] at h <;> rfl

/-- The modelled digest is injective: an ideal collision-free hash. -/
theorem digest_injective : Function.Injective digest := by
  intro a b h
  simp only [digest, Dg.node.injEq, Dg.leaf.injEq] at h
  obtain ⟨h1, h2, h3, h4, h5, h6, h7, h8, h9, h10, h11, h12, h13⟩ := h
  cases a; cases b
  simp only [KED.mk.injEq]
  exact ⟨ilkStr_inj h1, h2, h3, encOStr_inj h4, encODg_inj h5, encOStr_inj h6,
    encORa_inj h7, encOStr_inj h8, encOList_inj h9, encOList_inj h10,
    encOList_inj h11, encOList_inj h12, encOStr_inj h13⟩

theorem alookup_filter_ne {κ ν : Type} [DecidableEq κ] (l : List (κ × ν))
    (k k' : κ) (h : k' ≠ k) :
    alookup (l.filter (fun e => e.1 ≠ k)) k' = alookup l k' := by
  induction l with
  | nil => rfl
  | cons e rest ih =>
    by_cases hk : e.1 = k
    · rw [List.filter_cons, if_neg (by simp [hk])]
      rw [ih]
      have hek : e.1 ≠ k' := fun h2 => h (h2 ▸ hk)
      simp only [alookup, if_neg hek]
    · rw [List.filter_cons, if_pos (by simp [hk])]
      simp only [alookup]
      by_cases he : e.1 = k'
      · simp only [if_pos he]
      · simp only [if_neg he]
        exact ih

theorem alookup_aput_same {κ ν : Type} [DecidableEq κ] (l : List (κ × ν))
    (k : κ) (v : ν) :
    alookup (aput l k v).1 k = some ((alookup l k).getD v) := by
  cases h : alookup l k with
  | none => simp [aput, h, alookup]
  | some w => simp [aput, h]

theorem alookup_aput_ne {κ ν : Type} [DecidableEq κ] (l : List (κ × ν))
    (k k' : κ) (v : ν) (h : k' ≠ k) :
    alookup (aput l k v).1 k' = alookup l k' := by
  cases hl : alookup l k with
  | none => simp [aput, hl, alookup, Ne.symm h]
  | some w => simp [aput, hl]

theorem alookup_aput_mono {κ ν : Type} [DecidableEq κ] (l : List (κ × ν))
    (k k' : κ) (v w : ν) (h : alookup l k' = some w) :
    alookup (aput l k v).1 k' = some w := by
  by_cases hk : k' = k
  · subst hk
    rw [alookup_aput_same, h]; rfl
  · rw [alookup_aput_ne l k k' v hk, h]

theorem alookup_aput_inv {κ ν : Type} [DecidableEq κ] (l : List (κ × ν))
    (k k' : κ) (v w : ν) (h : alookup (aput l k v).1 k' = some w) :
    alookup l k' = some w ∨ (k' = k ∧ w = v) := by
  by_cases hk : k' = k
  · subst hk
    rw [alookup_aput_same] at h
    cases hl : alookup l k' with
    | none =>
      rw [hl] at h
      exact .inr ⟨rfl, (Option.some_inj.mp h).symm⟩
    | some u =>
      rw [hl] at h
      simp only [Option.getD_some] at h
      exact .inl h
  · rw [alookup_aput_ne l k k' v hk] at h
    exact .inl h

theorem alookup_apin_same {κ ν : Type} [DecidableEq κ] (l : List (κ × ν))
    (k : κ) (v : ν) : alookup (apin l k v) k = some v := by
  simp [apin, alookup]

theorem alookup_apin_ne {κ ν : Type} [DecidableEq κ] (l : List (κ × ν))
    (k k' : κ) (v : ν) (h : k' ≠ k) :
    alookup (apin l k v) k' = alookup l k' := by
  have hkk : k ≠ k' := Ne.symm h
  simp only [apin, alookup, if_neg hkk]
  exact alookup_filter_ne l k k' h

theorem alookup_adel_ne {κ ν : Type} [DecidableEq κ] (l : List (κ × ν))
    (k k' : κ) (h : k' ≠ k) :
    alookup (adel l k) k' = alookup l k' :=
  alookup_filter_ne l k k' h

theorem validPre_ne_nsKey {p : String} (h : validPre p = true) (r v : String) :
    p ≠ nsKey r v := by
  intro he
  subst he
  simp only [validPre, nsKey, Bool.and_eq_true, List.all_eq_true] at h
  have := h.2 ':' (by simp)
  simp [qb64Char, Char.isAlphanum, Char.isAlpha, Char.isUpper, Char.isLower,
    Char.isDigit] at this

theorem osetLAux_mem (l : List String) : ∀ (seen : List String) (a : String),
    a ∈ osetLAux seen l ↔ a ∈ l ∧ a ∉ seen := by
  induction l with
  | nil => intro seen a; simp [osetLAux]
  | cons x xs ih =>
    intro seen a
    by_cases hx : x ∈ seen
    · rw [osetLAux, if_pos hx, ih]
      constructor
      · rintro ⟨h1, h2⟩
        exact ⟨List.mem_cons_of_mem x h1, h2⟩
      · rintro ⟨h1, h2⟩
        rcases List.mem_cons.mp h1 with rfl | h1
        · exact absurd hx h2
        · exact ⟨h1, h2⟩
    · rw [osetLAux, if_neg hx]
      simp only [List.mem_cons, ih (x :: seen)]
      constructor
      · rintro (rfl | ⟨h1, h2⟩)
        · exact ⟨.inl rfl, hx⟩
        · exact ⟨.inr h1, fun hs => h2 (.inr hs)⟩
      · rintro ⟨rfl | h1, h2⟩
        · exact .inl rfl
        · by_cases hax : a = x
          · exact .inl hax
          · exact .inr ⟨h1, fun hs => hs.elim hax h2⟩

theorem osetLAux_nodup (l : List String) : ∀ (seen : List String),
    (osetLAux seen l).Nodup := by
  induction l with
  | nil => intro seen; simp [osetLAux]
  | cons x xs ih =>
    intro seen
    by_cases hx : x ∈ seen
    · rw [osetLAux, if_pos hx]; exact ih seen
    · rw [osetLAux, if_neg hx]
      refine List.nodup_cons.mpr ⟨fun hm => ?_, ih (x :: seen)⟩
      exact ((osetLAux_mem xs (x :: seen) x).mp hm).2 (List.mem_cons_self x seen)

theorem osetLAux_length_le (l : List String) : ∀ (seen : List String),
    (osetLAux seen l).length ≤ l.length := by
  induction l with
  | nil => intro seen; simp [osetLAux]
  | cons x xs ih =>
    intro seen
    by_cases hx : x ∈ seen
    · rw [osetLAux, if_pos hx]
      exact Nat.le_succ_of_le (ih seen)
    · rw [osetLAux, if_neg hx]
      simpa using Nat.succ_le_succ (ih (x :: seen))

theorem osetLAux_length_eq (l : List String) : ∀ (seen : List String),
    (osetLAux seen l).length = l.length ↔
      (l.Nodup ∧ ∀ a ∈ l, a ∉ seen) := by
  induction l with
  | nil => intro seen; simp [osetLAux]
  | cons x xs ih =>
    intro seen
    by_cases hx : x ∈ seen
    · rw [osetLAux, if_pos hx]
      have hle := osetLAux_length_le xs seen
      simp only [List.length_cons]
      constructor
      · intro h; omega
      · rintro ⟨_, hall⟩
        exact absurd hx (hall x (List.mem_cons_self x xs))
    · rw [osetLAux, if_neg hx]
      simp only [List.length_cons]
      rw [Nat.add_right_cancel_iff]
      rw [ih (x :: seen)]
      constructor
      · rintro ⟨hnd, hall⟩
        have hxx : x ∉ xs :=
          fun hxm => (hall x hxm) (List.mem_cons_self x seen)
        refine ⟨List.nodup_cons.mpr ⟨hxx, hnd⟩, fun a ha => ?_⟩
        rcases List.mem_cons.mp ha with rfl | ha2
        · exact hx
        · exact fun hs => (hall a ha2) (List.mem_cons_of_mem x hs)
      · rintro ⟨hnd2, hall⟩
        obtain ⟨hxx, hnd⟩ := List.nodup_cons.mp hnd2
        refine ⟨hnd, fun a ha hs => ?_⟩
        rcases List.mem_cons.mp hs with rfl | hs2
        · exact hxx ha
        · exact (hall a (List.mem_cons_of_mem x ha)) hs2

theorem osetL_nodup (l : List String) : (osetL l).Nodup := osetLAux_nodup l []

theorem osetL_length_iff (l : List String) :
    (osetL l).length = l.length ↔ l.Nodup := by
  rw [osetL, osetLAux_length_eq l []]
  simp

theorem osetL_mem (l : List String) (a : String) : a ∈ osetL l ↔ a ∈ l := by
  rw [osetL, osetLAux_mem l []]
  simp

theorem osetLAux_eq_self (l : List String) : ∀ (seen : List String),
    l.Nodup → (∀ a ∈ l, a ∉ seen) → osetLAux seen l = l := by
  induction l with
  | nil => intro seen _ _; rfl
  | cons x xs ih =>
    intro seen hnd hall
    rw [osetLAux, if_neg (hall x (List.mem_cons_self x xs))]
    congr 1
    refine ih (x :: seen) (List.nodup_cons.mp hnd).2 (fun a ha hs => ?_)
    rcases List.mem_cons.mp hs with rfl | hs2
    · exact (List.nodup_cons.mp hnd).1 ha
    · exact hall a (List.mem_cons_of_mem x ha) hs2

theorem osetL_eq_self_of_nodup {l : List String} (h : l.Nodup) :
    osetL l = l :=
  osetLAux_eq_self l [] h (by simp)

/-! ## Claim C9: the query constructor's datetime fields -/

/-- Claim C9: the claim states that the built query mapping's `dta` field
carries the `dta` argument and `dtb` carries `dtb`.  The source instead
assigns `dt` to both: at `dt="A"`, `dta="B"`, `dtb="C"` the mapping carries
`"A"` in all three fields — the code contradicts its own docstring (`dta` is
documented as the "datetime after" bound), and the spec flags it as a typo. -/
theorem claim_C9_query_dta_dtb :
    query "R" "V" (some "A") (some "B") (some "C") =
      { i := "V", ri := "R", dt := some (some "A"), dta := some (some "A"),
        dtb := some (some "A") } ∧
    (query "R" "V" (some "A") (some "B") (some "C")).dta ≠ some (some "B") ∧
    (query "R" "V" (some "A") (some "B") (some "C")).dtb ≠ some (some "C") := by
  refine ⟨rfl, ?_, ?_⟩ <;> decide

/-! ## Claim C10: string `toad` in the `incept`/`rotate` constructors -/

/-- Claim C10: passing `toad` as a string (hex or not) to `incept` or
`rotate` always raises `ValueError` before any event body is built — the
string branch applies the integer format code to a `str` — so only an
integer or an omitted `toad` can ever produce an event. -/
theorem claim_C10_string_toad :
    (∀ pre s baks0 cnfg0, incept pre (.hs s) baks0 cnfg0 = .error .valueErr) ∧
    (∀ regk dig sn s baks0 cuts0 adds0,
      rotate regk dig sn (.hs s) baks0 cuts0 adds0 = .error .valueErr) ∧
    (∀ pre t baks0 cnfg0 ked, incept pre t baks0 cnfg0 = .ok ked →
      ∀ s, t ≠ .hs s) ∧
    (∀ regk dig sn t baks0 cuts0 adds0 ked,
      rotate regk dig sn t baks0 cuts0 adds0 = .ok ked → ∀ s, t ≠ .hs s) := by
  have h1 : ∀ pre s baks0 cnfg0,
      incept pre (.hs s) baks0 cnfg0 = .error .valueErr := by
    intro pre s baks0 cnfg0
    unfold incept
    dsimp only
    split_ifs <;> rfl
  have h2 : ∀ regk dig sn s baks0 cuts0 adds0,
      rotate regk dig sn (.hs s) baks0 cuts0 adds0 = .error .valueErr := by
    intro regk dig sn s baks0 cuts0 adds0
    unfold rotate
    dsimp only
    split_ifs <;> rfl
  refine ⟨h1, h2, ?_, ?_⟩
  · intro pre t baks0 cnfg0 ked hok s ht
    rw [ht, h1] at hok
    cases hok
  · intro regk dig sn t baks0 cuts0 adds0 ked hok s ht
    rw [ht, h2] at hok
    cases hok

/-- Witness for claim C10 at a concrete input. -/
theorem claim_C10_witness :
    incept "P" (.hs "5") none none = .error .valueErr ∧
    rotate "R" (.leaf "d") 1 (.hs "5") none none none = .error .valueErr :=
  ⟨claim_C10_string_toad.1 "P" "5" none none,
    claim_C10_string_toad.2.1 "R" (.leaf "d") 1 "5" none none none⟩

/-! ## Claim C3: `verifyAnchor` -/

/-- Claim C3: `Tever.verifyAnchor serder seqner diger` returns true iff the
KEL has an event digest at `(pre = tv.pre, sn = seqner)`, the event body is
retrievable under that digest with its digest equal to `diger`, its seal
field `a` holds exactly one seal, and that seal satisfies `i = serder.i`,
`s = serder.s` and `d =` the digest of `serder`; in every other case it
returns false. -/
theorem claim_C3_verifyAnchor (tv : Tever) (db : Kels) (serder : KED)
    (seqner : Nat) (diger : Dg) :
    tv.verifyAnchor db serder seqner diger = true ↔
      ∃ dig eserder sl,
        getKeLast db ⟨tv.pre, seqner⟩ = some dig ∧
        getEvt db ⟨tv.pre, dig⟩ = some eserder ∧
        kelDigest eserder = diger ∧
        eserder.a = some [sl] ∧
        sl.i = serder.i ∧ sl.s = serder.s ∧ sl.d = digest serder := by
  constructor
  · intro h
    unfold Tever.verifyAnchor at h
    split at h
    · exact absurd h (by simp)
    · rename_i dig h1
      split at h
      · exact absurd h (by simp)
      · rename_i eserder h2
        split at h
        · exact absurd h (by simp)
        · rename_i h3
          rw [not_not] at h3
          split at h
          · exact absurd h (by simp)
          · rename_i seals h4
            split at h
            · rename_i sl
              obtain ⟨hi, hs, hd⟩ := of_decide_eq_true h
              exact ⟨dig, eserder, sl, h1, h2, h3, h4, hi, hs, hd.symm⟩
            · exact absurd h (by simp)
  · rintro ⟨dig, eserder, sl, h1, h2, h3, h4, hi, hs, hd⟩
    unfold Tever.verifyAnchor
    simp [h1, h2, h3, h4, hi, hs, hd]

/-! ## Claim C8: mutation order in `Tever.update` -/

/-- Counterexample to claim C8: in the `vrt` branch of `Tever.update` the
in-memory field assignments (source lines 925-931) precede the `logEvent`
store writes (lines 933-939): the statement trace contains a store write
after a mutation, so the fields are not "mutated only after the store
writes have succeeded". -/
theorem claim_C8_counterexample :
    noWriteAfterMutation vrtUpdateOps = false ∧
    UpdOp.setSn ∈ vrtUpdateOps ∧ UpdOp.writeTel ∈ vrtUpdateOps := by
  refine ⟨?_, ?_, ?_⟩ <;> decide

/-- Claim C8 (amended): the in-memory `Tever` fields are mutated only after
every validation step (`validateSN`, `Tever.rotate`, `valAnchorBigs`) has
succeeded — no validation follows a mutation in the `vrt` trace — but before
the `logEvent` store writes; consequently, whenever `Tever.update` leaves
the in-memory state changed, the event was a `vrt` that passed all three
validations, and on any validation failure (and on every non-`vrt` event)
the in-memory state is unchanged. -/
theorem claim_C8_amended :
    noValidationAfterMutation vrtUpdateOps = true ∧
    ∀ tv db rg cs serder seqner diger bigers,
      (Tever.update tv db rg cs serder seqner diger bigers).1 ≠ tv →
      serder.t = .vrt ∧ tv.noBackers = false ∧
      ∃ sn toad baks cuts adds rg2 cs2 vbigers,
        validateSN serder.s
          (decide (serder.t = .iss ∨ serder.t = .bis)) = .ok sn ∧
        Tever.rotate tv serder sn = .ok (toad, baks, cuts, adds) ∧
        tv.valAnchorBigs db rg cs serder seqner diger bigers (.num toad) baks
          = (rg2, cs2, .ok vbigers) := by
  refine ⟨by decide, ?_⟩
  intro tv db rg cs serder seqner diger bigers hne
  cases hsn : validateSN serder.s
      (decide (serder.t = .iss ∨ serder.t = .bis)) with
  | error e =>
    exact absurd (by simp only [Tever.update, hsn]) hne
  | ok sn =>
    by_cases hvrt : serder.t = .vrt
    · by_cases hnb : tv.noBackers = true
      · exact absurd (by simp only [Tever.update, hsn, if_pos hvrt,
          if_pos hnb]) hne
      · cases hrot : Tever.rotate tv serder sn with
        | error e =>
          exact absurd (by simp only [Tever.update, hsn, if_pos hvrt,
            if_neg hnb, hrot]) hne
        | ok quad =>
          obtain ⟨toad, baks, cuts, adds⟩ := quad
          cases hval : tv.valAnchorBigs db rg cs serder seqner diger bigers
              (.num toad) baks with
          | mk rg2 rest =>
            obtain ⟨cs2, res⟩ := rest
            cases res with
            | error e =>
              exact absurd (by simp only [Tever.update, hsn, if_pos hvrt,
                if_neg hnb, hrot, hval]) hne
            | ok vbigers =>
              refine ⟨hvrt, by simpa using hnb, sn, toad, baks, cuts, adds,
                rg2, cs2, vbigers, ?_, ?_, ?_⟩ <;>
                first
                | rfl
                | exact hsn
                | exact hrot
                | exact hval
    · by_cases hib : serder.t = .iss ∨ serder.t = .bis
      · exact absurd (by simp only [Tever.update, hsn, if_neg hvrt,
          if_pos hib]) hne
      · by_cases hrb : serder.t = .rev ∨ serder.t = .brv
        · exact absurd (by simp only [Tever.update, hsn, if_neg hvrt,
            if_neg hib, if_pos hrb]) hne
        · exact absurd (by simp only [Tever.update, hsn, if_neg hvrt,
            if_neg hib, if_neg hrb]) hne

/-- Witness for claim C8 (amended) at a concrete input: a valid rotation of
`RB` does change the in-memory state, and the theorem yields that all three
validation steps succeeded for it. -/
theorem claim_C8_witness :
    (Tever.update fxTvB fxDbB {} [] fxVrt 5 (kelDigest fxKel3) []).1 ≠ fxTvB ∧
    (fxVrt.t = .vrt ∧ fxTvB.noBackers = false ∧
      ∃ sn toad baks cuts adds rg2 cs2 vbigers,
        validateSN fxVrt.s
          (decide (fxVrt.t = .iss ∨ fxVrt.t = .bis)) = .ok sn ∧
        Tever.rotate fxTvB fxVrt sn = .ok (toad, baks, cuts, adds) ∧
        fxTvB.valAnchorBigs fxDbB {} [] fxVrt 5 (kelDigest fxKel3) []
          (.num toad) baks = (rg2, cs2, .ok vbigers)) :=
  have h : (Tever.update fxTvB fxDbB {} [] fxVrt 5
      (kelDigest fxKel3) []).1 ≠ fxTvB := by decide
  ⟨h, claim_C8_amended.2 fxTvB fxDbB {} [] fxVrt 5 (kelDigest fxKel3) [] h⟩

/-! ## Claim C6: the `noBackers` gate -/

theorem validateSN_error_eq {s : String} {b : Bool} {e : Err}
    (h : validateSN s b = .error e) : e = .validation := by
  unfold validateSN at h
  split at h
  · cases h; rfl
  · split at h
    · cases h; rfl
    · split at h
      · cases h; rfl
      · split at h
        · split at h
          · cases h
          · cases h; rfl
        · split at h
          · cases h; rfl
          · cases h

theorem issue_iss_backerBased (tv : Tever) (db : Kels) (rg : Regs)
    (cs : List Cue) (serder : KED) (seqner : Nat) (diger : Dg) (sn : Nat)
    (bigers : List Biger) (ht : serder.t = .iss)
    (hnb : tv.noBackers = false) :
    tv.issue db rg cs serder seqner diger sn bigers
      = (rg, cs, some .validation) := by
  simp only [Tever.issue, ht, hnb]
  simp

theorem issue_bis_backerless (tv : Tever) (db : Kels) (rg : Regs)
    (cs : List Cue) (serder : KED) (seqner : Nat) (diger : Dg) (sn : Nat)
    (bigers : List Biger) (ht : serder.t = .bis)
    (hnb : tv.noBackers = true) :
    tv.issue db rg cs serder seqner diger sn bigers
      = (rg, cs, some .validation) := by
  simp only [Tever.issue, ht, hnb]
  simp

theorem revoke_rev_backerBased (tv : Tever) (db : Kels) (rg : Regs)
    (cs : List Cue) (serder : KED) (seqner : Nat) (diger : Dg) (sn : Nat)
    (bigers : List Biger) (ht : serder.t = .rev)
    (hnb : tv.noBackers = false) :
    tv.revoke db rg cs serder seqner diger sn bigers
      = (rg, cs, some .validation) := by
  cases hp : serder.p with
  | none => simp [Tever.revoke, ht, hp]
  | some pd =>
    simp only [Tever.revoke, ht, hnb, hp]
    cases hg1 : getTel rg ⟨nsKey tv.prefixer serder.i, sn - 1⟩ with
    | none => simp [hg1]
    | some dig =>
      cases hg2 : getTvt rg ⟨nsKey tv.prefixer serder.i, dig⟩ with
      | none => simp [hg2]
      | some iserder => simp [hg2]

theorem revoke_brv_backerless (tv : Tever) (db : Kels) (rg : Regs)
    (cs : List Cue) (serder : KED) (seqner : Nat) (diger : Dg) (sn : Nat)
    (bigers : List Biger) (ht : serder.t = .brv)
    (hnb : tv.noBackers = true) :
    tv.revoke db rg cs serder seqner diger sn bigers
      = (rg, cs, some .validation) := by
  cases hp : serder.p with
  | none => simp [Tever.revoke, ht, hp]
  | some pd =>
    simp only [Tever.revoke, ht, hnb, hp]
    cases hg1 : getTel rg ⟨nsKey tv.prefixer serder.i, sn - 1⟩ with
    | none => simp [hg1]
    | some dig =>
      cases hg2 : getTvt rg ⟨nsKey tv.prefixer serder.i, dig⟩ with
      | none => simp [hg2]
      | some iserder => simp [hg2]

/-- Claim C6: on a backerless registry (`noBackers = true`), `Tever.update`
raises a validation error on every `vrt`, `bis` or `brv` event, leaving the
store, cues and in-memory state unchanged — so none of these is ever
first-seen there; symmetrically, on a backer-based registry
(`noBackers = false`) it raises a validation error on every `iss` or `rev`
event. -/
theorem claim_C6_noBackers_gate (tv : Tever) (db : Kels) (rg : Regs)
    (cs : List Cue) (serder : KED) (seqner : Nat) (diger : Dg)
    (bigers : List Biger)
    (h : (tv.noBackers = true ∧
            (serder.t = .vrt ∨ serder.t = .bis ∨ serder.t = .brv)) ∨
         (tv.noBackers = false ∧ (serder.t = .iss ∨ serder.t = .rev))) :
    Tever.update tv db rg cs serder seqner diger bigers
      = (tv, rg, cs, some .validation) := by
  cases hsn : validateSN serder.s
      (decide (serder.t = .iss ∨ serder.t = .bis)) with
  | error e =>
    rw [validateSN_error_eq hsn] at hsn
    simp only [Tever.update, hsn]
  | ok sn =>
    rcases h with ⟨hnb, ht | ht | ht⟩ | ⟨hnb, ht | ht⟩
    · simp only [Tever.update, hsn]
      simp [ht, hnb]
    · simp only [Tever.update, hsn]
      rw [issue_bis_backerless tv db rg cs serder seqner diger sn bigers ht hnb]
      simp [ht]
    · simp only [Tever.update, hsn]
      rw [revoke_brv_backerless tv db rg cs serder seqner diger sn bigers ht hnb]
      simp [ht]
    · simp only [Tever.update, hsn]
      rw [issue_iss_backerBased tv db rg cs serder seqner diger sn bigers ht hnb]
      simp [ht]
    · simp only [Tever.update, hsn]
      rw [revoke_rev_backerBased tv db rg cs serder seqner diger sn bigers ht hnb]
      simp [ht]

/-- Witness for claim C6: a `brv` against the backerless registry `fxReg`
raises a validation error and changes nothing. -/
theorem claim_C6_witness :
    Tever.update fxTvNB fxDb {} [] fxBrv 3 (.leaf "dx") []
      = (fxTvNB, {}, [], some .validation) :=
  claim_C6_noBackers_gate fxTvNB fxDb {} [] fxBrv 3 (.leaf "dx") []
    (by decide)

/-! ## Claim C1: `processEvent` on a known registry -/

theorem processEvent_eq_gated (st : TvySt) (regk : String) (serder : KED)
    (seqner : Nat) (diger : Dg) (wigers : List Biger) (sn : Nat)
    (hpre : validPre serder.i = true)
    (hreg : registryKey serder = .ok regk)
    (hsn : validateSN serder.s
      (decide (serder.t = .vcp ∨ serder.t = .iss ∨ serder.t = .bis))
        = .ok sn)
    (hloc : ∀ myregk, st.regk = some myregk →
      (st.loc = true → myregk = regk) ∧ (st.loc = false → myregk ≠ regk)) :
    processEvent st serder seqner diger wigers
      = processGated st regk serder.i sn serder seqner diger wigers := by
  simp only [processEvent, hpre, hreg, hsn]
  cases hr : st.regk with
  | none => simp
  | some m =>
    obtain ⟨h1, h2⟩ := hloc m hr
    cases hl : st.loc with
    | true => simp [h1 hl]
    | false => simp [h2 hl]

/-- Claim C1: for every event against a registry already present in the
`tevers` cache (that passed the prefix, registry-key, sequence-number and
locality gates), `Tevery.processEvent` computes the expected next sequence
number `sno` — `tever.sn + 1` for a `vrt`; for credential events `0` when
the credential has no logged TEL entries, else its current sn + 1 (via
`vcSn`) — and then: a `vcp` always raises likely-duplicitous; `sn > sno`
writes the event to the `oot` escrow and raises out-of-order; `sn = sno`
delegates to `tever.update`, committing its resulting state; and `sn < sno`
raises likely-duplicitous without escrowing or any state change. -/
theorem claim_C1_known_registry (st : TvySt) (tv : Tever) (regk : String)
    (serder : KED) (seqner : Nat) (diger : Dg) (wigers : List Biger)
    (sn : Nat)
    (hpre : validPre serder.i = true)
    (hreg : registryKey serder = .ok regk)
    (hsn : validateSN serder.s
      (decide (serder.t = .vcp ∨ serder.t = .iss ∨ serder.t = .bis))
        = .ok sn)
    (hloc : ∀ myregk, st.regk = some myregk →
      (st.loc = true → myregk = regk) ∧ (st.loc = false → myregk ≠ regk))
    (htev : alookup st.tevers regk = some tv) :
    (serder.t = .vcp →
      processEvent st serder seqner diger wigers
        = (st, some .likelyDuplicitous)) ∧
    (serder.t ≠ .vcp →
      (sn > (if serder.t = .vrt then tv.sn + 1
        else match tv.vcSn st.rg serder.i with
          | none => 0
          | some esn => esn + 1) →
        processEvent st serder seqner diger wigers
          = ({ st with rg := escrowOOEvent st.rg serder seqner diger },
              some .outOfOrder)) ∧
      (sn = (if serder.t = .vrt then tv.sn + 1
        else match tv.vcSn st.rg serder.i with
          | none => 0
          | some esn => esn + 1) →
        processEvent st serder seqner diger wigers
          = (match tv.update st.db st.rg st.cues serder seqner diger wigers
             with
             | (tv2, rg, cs, err) =>
               ({ st with
                  rg := rg, cues := cs,
                  tevers := apin st.tevers regk tv2 }, err))) ∧
      (sn < (if serder.t = .vrt then tv.sn + 1
        else match tv.vcSn st.rg serder.i with
          | none => 0
          | some esn => esn + 1) →
        processEvent st serder seqner diger wigers
          = (st, some .likelyDuplicitous))) := by
  rw [processEvent_eq_gated st regk serder seqner diger wigers sn hpre hreg
    hsn hloc]
  refine ⟨?_, ?_⟩
  · intro hvcp
    simp [processGated, htev, hvcp]
  · intro hvcp
    refine ⟨?_, ?_, ?_⟩
    · intro hgt
      simp only [processGated, htev]
      rw [if_neg hvcp, if_pos hgt]
    · intro heq
      have hngt : ¬ (sn > (if serder.t = .vrt then tv.sn + 1
          else match tv.vcSn st.rg serder.i with
            | none => 0
            | some esn => esn + 1)) := by omega
      simp only [processGated, htev]
      rw [if_neg hvcp, if_neg hngt, if_pos heq]
    · intro hlt
      have hngt : ¬ (sn > (if serder.t = .vrt then tv.sn + 1
          else match tv.vcSn st.rg serder.i with
            | none => 0
            | some esn => esn + 1)) := by omega
      have hne : ¬ (sn = (if serder.t = .vrt then tv.sn + 1
          else match tv.vcSn st.rg serder.i with
            | none => 0
            | some esn => esn + 1)) := by omega
      simp only [processGated, htev]
      rw [if_neg hvcp, if_neg hngt, if_neg hne]

/-- Witness for claim C1 at a concrete input: a `vrt` at sn 5 against the
cached `RB` registry (tip sn 0) is escrowed out of order. -/
theorem claim_C1_witness :
    processEvent
        { db := fxDbB, rg := {}, tevers := [("RB", fxTvB)], regk := none,
          loc := false, cues := [] } fxVrt5 9 (.leaf "d9") []
      = ({ db := fxDbB, rg := escrowOOEvent {} fxVrt5 9 (.leaf "d9"),
           tevers := [("RB", fxTvB)], regk := none, loc := false,
           cues := [] }, some .outOfOrder) :=
  (claim_C1_known_registry
      { db := fxDbB, rg := {}, tevers := [("RB", fxTvB)], regk := none,
        loc := false, cues := [] } fxTvB "RB" fxVrt5 9 (.leaf "d9") [] 5
      (by decide) rfl rfl
      (fun myregk hm => by cases hm) (by decide)).2
    (by decide) |>.1 (by decide)

theorem osetInter_subset_of_eq {a b : List String} (h : osetInter a b = b) :
    ∀ x ∈ b, x ∈ a := fun x hx =>
  (List.mem_filter.mp (h ▸ hx)).1

theorem osetInter_disjoint_of_nil {a b : List String}
    (h : osetInter a b = []) : ∀ x ∈ a, x ∉ b := by
  intro x hxa hxb
  have hm : x ∈ osetInter a b :=
    List.mem_filter.mpr ⟨hxa, by simpa using hxb⟩
  rw [h] at hm
  cases hm

theorem osetDiff_nodup {a : List String} (b : List String) (ha : a.Nodup) :
    (osetDiff a b).Nodup := ha.filter _

theorem osetUnion_nodup {a b : List String} (ha : a.Nodup) (hb : b.Nodup) :
    (osetUnion a b).Nodup := by
  refine (List.nodup_append).mpr ⟨ha, hb.filter _, ?_⟩
  intro x hx1 hx2
  have hx3 := (List.mem_filter.mp hx2).2
  simp only [decide_eq_true_eq] at hx3
  exact hx3 hx1

theorem rotateKed_br_ba {regk : String} {dig : Dg} {sn : Nat}
    {cuts adds nbs : List String} {t : Int} {ked : KED}
    (h : rotateKed regk dig sn cuts adds nbs t = .ok ked) :
    ked.br = some cuts ∧ ked.ba = some adds := by
  unfold rotateKed at h
  split at h
  · split at h
    · exact Except.noConfusion h
    · rw [Except.ok.injEq] at h
      subst h
      exact ⟨rfl, rfl⟩
  · split at h
    · exact Except.noConfusion h
    · rw [Except.ok.injEq] at h
      subst h
      exact ⟨rfl, rfl⟩

/-- Extraction of a successful `rotateToad`. -/
theorem rotateToad_ok_spec {serder : KED} {baks cuts adds : List String}
    {toad : Nat} {baks2 cuts2 adds2 : List String}
    (h : Tever.rotateToad serder baks cuts adds
      = .ok (toad, baks2, cuts2, adds2)) :
    baks2 = baks ∧ cuts2 = cuts ∧ adds2 = adds := by
  unfold Tever.rotateToad at h
  split at h
  · exact Except.noConfusion h
  · split at h
    · exact Except.noConfusion h
    · split at h
      · split at h
        · exact Except.noConfusion h
        · rw [Except.ok.injEq, Prod.mk.injEq, Prod.mk.injEq,
            Prod.mk.injEq] at h
          exact ⟨h.2.1.symm, h.2.2.1.symm, h.2.2.2.symm⟩
      · split at h
        · exact Except.noConfusion h
        · rw [Except.ok.injEq, Prod.mk.injEq, Prod.mk.injEq,
            Prod.mk.injEq] at h
          exact ⟨h.2.1.symm, h.2.2.1.symm, h.2.2.2.symm⟩

/-- Extraction of the checks performed by a successful `rotateSets`. -/
theorem rotateSets_ok_spec {tv : Tever} {serder : KED} {toad : Nat}
    {baks cuts adds : List String}
    (h : Tever.rotateSets tv serder = .ok (toad, baks, cuts, adds)) :
    serder.br = some cuts ∧ serder.ba = some adds ∧
    cuts.Nodup ∧ adds.Nodup ∧
    osetInter (osetL tv.baks) (osetL cuts) = osetL cuts ∧
    osetInter (osetL cuts) (osetL adds) = [] ∧
    osetInter (osetL tv.baks) (osetL adds) = [] ∧
    baks = osetUnion (osetDiff (osetL tv.baks) (osetL cuts)) (osetL adds) ∧
    (baks.length : Int)
      = (tv.baks.length : Int) - cuts.length + adds.length := by
  unfold Tever.rotateSets at h
  cases hbr : serder.br with
  | none => rw [hbr] at h; exact Except.noConfusion h
  | some cuts0 =>
    rw [hbr] at h
    simp only at h
    by_cases hc1 : (osetL cuts0).length ≠ cuts0.length
    · rw [if_pos hc1] at h
      exact Except.noConfusion h
    rw [if_neg hc1] at h
    by_cases hc2 : osetInter (osetL tv.baks) (osetL cuts0) ≠ osetL cuts0
    · rw [if_pos hc2] at h
      exact Except.noConfusion h
    rw [if_neg hc2] at h
    cases hba : serder.ba with
    | none => rw [hba] at h; exact Except.noConfusion h
    | some adds0 =>
      rw [hba] at h
      simp only at h
      by_cases ha1 : (osetL adds0).length ≠ adds0.length
      · rw [if_pos ha1] at h
        exact Except.noConfusion h
      rw [if_neg ha1] at h
      by_cases hca : osetInter (osetL cuts0) (osetL adds0) ≠ []
      · rw [if_pos hca] at h
        exact Except.noConfusion h
      rw [if_neg hca] at h
      by_cases hwa : osetInter (osetL tv.baks) (osetL adds0) ≠ []
      · rw [if_pos hwa] at h
        exact Except.noConfusion h
      rw [if_neg hwa] at h
      by_cases hlen : ((osetUnion (osetDiff (osetL tv.baks) (osetL cuts0))
          (osetL adds0)).length : Int)
          ≠ (tv.baks.length : Int) - cuts0.length + adds0.length
      · rw [if_pos hlen] at h
        exact Except.noConfusion h
      rw [if_neg hlen] at h
      obtain ⟨hb2, hc2b, ha2⟩ := rotateToad_ok_spec h
      subst hb2; subst hc2b; subst ha2
      rw [not_not] at hc1 ha1 hc2 hca hwa hlen
      exact ⟨rfl, rfl, (osetL_length_iff cuts).mp hc1,
        (osetL_length_iff adds).mp ha1, hc2, hca, hwa, rfl, hlen⟩

/-- Extraction of the checks performed by a successful `Tever.rotate`. -/
theorem rotate_ok_spec (tv : Tever) (serder : KED) (sn : Nat) (toad : Nat)
    (baks cuts adds : List String)
    (h : Tever.rotate tv serder sn = .ok (toad, baks, cuts, adds)) :
    serder.br = some cuts ∧ serder.ba = some adds ∧
    cuts.Nodup ∧ adds.Nodup ∧
    osetInter (osetL tv.baks) (osetL cuts) = osetL cuts ∧
    osetInter (osetL cuts) (osetL adds) = [] ∧
    osetInter (osetL tv.baks) (osetL adds) = [] ∧
    baks = osetUnion (osetDiff (osetL tv.baks) (osetL cuts)) (osetL adds) ∧
    (baks.length : Int)
      = (tv.baks.length : Int) - cuts.length + adds.length := by
  unfold Tever.rotate at h
  cases hp : serder.p with
  | none => rw [hp] at h; exact Except.noConfusion h
  | some dig =>
    rw [hp] at h
    simp only at h
    by_cases h1 : serder.i ≠ tv.prefixer
    · rw [if_pos h1] at h
      exact Except.noConfusion h
    rw [if_neg h1] at h
    by_cases h2 : sn ≠ tv.sn + 1
    · rw [if_pos h2] at h
      exact Except.noConfusion h
    rw [if_neg h2] at h
    by_cases h3 : digest tv.serder ≠ dig
    · rw [if_pos h3] at h
      exact Except.noConfusion h
    rw [if_neg h3] at h
    exact rotateSets_ok_spec h

/-- Extraction of the gate checks of a successful `Tever.rotate`: the event
came in at the next sequence number with prior digest equal to the current
tip's digest and matching registry prefix. -/
theorem rotate_ok_gates (tv : Tever) (serder : KED) (sn : Nat)
    (q : Nat × List String × List String × List String)
    (h : Tever.rotate tv serder sn = .ok q) :
    serder.p = some (digest tv.serder) ∧ serder.i = tv.prefixer ∧
    sn = tv.sn + 1 := by
  unfold Tever.rotate at h
  cases hp : serder.p with
  | none => rw [hp] at h; exact Except.noConfusion h
  | some dig =>
    rw [hp] at h
    simp only at h
    by_cases h1 : serder.i ≠ tv.prefixer
    · rw [if_pos h1] at h
      exact Except.noConfusion h
    rw [if_neg h1] at h
    by_cases h2 : sn ≠ tv.sn + 1
    · rw [if_pos h2] at h
      exact Except.noConfusion h
    rw [if_neg h2] at h
    by_cases h3 : digest tv.serder ≠ dig
    · rw [if_pos h3] at h
      exact Except.noConfusion h
    rw [if_neg h3] at h
    rw [not_not] at h1 h2 h3
    exact ⟨congrArg some h3.symm, h1, h2⟩

/-- Claim C5: for every accepted registry rotation — via `Tever.rotate` on a
`vrt` against a duplicate-free previous backer list, or via the `rotate`
event constructor — the new backer list has no duplicates, every cut is a
member of the previous backer list, cuts and adds are disjoint, the previous
backers and adds are disjoint, the resulting list is the ordered
`(baks_prev \ br) ∪ ba` with `|baks_new| = |baks_prev| - |br| + |ba|`; a
violation of any of these conditions raises the invalid-argument family
error (`ValidationError` in `Tever.rotate`, whose failure leaves
`Tever.update`'s state unchanged, and `ValueError` in the constructor). -/
theorem claim_C5_rotation :
    (∀ tv serder sn toad baks cuts adds, tv.baks.Nodup →
      Tever.rotate tv serder sn = .ok (toad, baks, cuts, adds) →
      baks.Nodup ∧ (∀ c ∈ cuts, c ∈ tv.baks) ∧
      (∀ x ∈ cuts, x ∉ adds) ∧ (∀ x ∈ tv.baks, x ∉ adds) ∧
      baks = osetUnion (osetDiff tv.baks cuts) adds ∧
      baks.length + cuts.length = tv.baks.length + adds.length) ∧
    (∀ tv serder sn (cuts adds : List String),
      serder.br = some cuts → serder.ba = some adds →
      (¬ cuts.Nodup ∨ (∃ c ∈ cuts, c ∉ tv.baks) ∨
       (∃ x ∈ cuts, x ∈ adds) ∨ (∃ x ∈ tv.baks, x ∈ adds) ∨
       ¬ adds.Nodup) →
      ∀ toad baks cuts2 adds2,
        Tever.rotate tv serder sn ≠ .ok (toad, baks, cuts2, adds2)) ∧
    (∀ tv db rg cs serder seqner diger bigers sn2 e,
      serder.t = .vrt → tv.noBackers = false →
      validateSN serder.s
        (decide (serder.t = .iss ∨ serder.t = .bis)) = .ok sn2 →
      Tever.rotate tv serder sn2 = .error e →
      Tever.update tv db rg cs serder seqner diger bigers
        = (tv, rg, cs, some e)) ∧
    (∀ regk dig sn toad baks cuts adds ked,
      rotate regk dig sn toad (some baks) (some cuts) (some adds)
        = .ok ked →
      baks.Nodup ∧ cuts.Nodup ∧ adds.Nodup ∧
      (osetUnion (osetDiff baks cuts) adds).Nodup ∧
      (∀ c ∈ cuts, c ∈ baks) ∧ (∀ x ∈ cuts, x ∉ adds) ∧
      (∀ x ∈ baks, x ∉ adds) ∧
      (osetUnion (osetDiff baks cuts) adds).length + cuts.length
        = baks.length + adds.length ∧
      ked.br = some cuts ∧ ked.ba = some adds) := by
  have hmain : ∀ (tv : Tever) serder sn toad baks cuts adds,
      Tever.rotate tv serder sn = .ok (toad, baks, cuts, adds) →
      tv.baks.Nodup →
      baks.Nodup ∧ (∀ c ∈ cuts, c ∈ tv.baks) ∧
      (∀ x ∈ cuts, x ∉ adds) ∧ (∀ x ∈ tv.baks, x ∉ adds) ∧
      baks = osetUnion (osetDiff tv.baks cuts) adds ∧
      baks.length + cuts.length = tv.baks.length + adds.length := by
    intro tv serder sn toad baks cuts adds h hnd
    obtain ⟨hbr, hba, hcn, han, hsub, hca, hwa, hexpr, hlen⟩ :=
      rotate_ok_spec tv serder sn toad baks cuts adds h
    simp only [osetL_eq_self_of_nodup hnd, osetL_eq_self_of_nodup hcn,
      osetL_eq_self_of_nodup han] at hsub hca hwa hexpr
    refine ⟨?_, ?_, ?_, ?_, hexpr, ?_⟩
    · rw [hexpr]
      exact osetUnion_nodup (osetDiff_nodup cuts hnd) han
    · exact osetInter_subset_of_eq hsub
    · exact osetInter_disjoint_of_nil hca
    · exact osetInter_disjoint_of_nil hwa
    · omega
  refine ⟨fun tv serder sn toad baks cuts adds hnd h =>
      hmain tv serder sn toad baks cuts adds h hnd, ?_, ?_, ?_⟩
  · intro tv serder sn cuts adds hbr hba hviol toad baks cuts2 adds2 h
    obtain ⟨hbr2, hba2, hcn, han, hsub, hca, hwa, hexpr, hlen⟩ :=
      rotate_ok_spec tv serder sn toad baks cuts2 adds2 h
    rw [hbr] at hbr2
    rw [hba] at hba2
    cases hbr2
    cases hba2
    rcases hviol with hv | ⟨c, hc1, hc2⟩ | ⟨x, hx1, hx2⟩ | ⟨x, hx1, hx2⟩ | hv
    · exact hv hcn
    · exact hc2 (by
        have := osetInter_subset_of_eq hsub c ((osetL_mem cuts c).mpr hc1)
        exact (osetL_mem tv.baks c).mp this)
    · exact osetInter_disjoint_of_nil hca x ((osetL_mem cuts x).mpr hx1)
        ((osetL_mem adds x).mpr hx2)
    · exact osetInter_disjoint_of_nil hwa x ((osetL_mem tv.baks x).mpr hx1)
        ((osetL_mem adds x).mpr hx2)
    · exact hv han
  · intro tv db rg cs serder seqner diger bigers sn2 e ht hnb hsn hrot
    simp only [Tever.update, hsn]
    simp [ht, hnb, hrot]
  · intro regk dig sn toad baks cuts adds ked h
    unfold rotate at h
    simp only [Option.getD_some] at h
    by_cases h0 : sn < 1
    · rw [if_pos h0] at h
      exact Except.noConfusion h
    rw [if_neg h0] at h
    by_cases hb1 : (osetL baks).length ≠ baks.length
    · rw [if_pos hb1] at h
      exact Except.noConfusion h
    rw [if_neg hb1] at h
    by_cases hc1 : (osetL cuts).length ≠ cuts.length
    · rw [if_pos hc1] at h
      exact Except.noConfusion h
    rw [if_neg hc1] at h
    by_cases hc2 : osetInter (osetL baks) (osetL cuts) ≠ osetL cuts
    · rw [if_pos hc2] at h
      exact Except.noConfusion h
    rw [if_neg hc2] at h
    by_cases ha1 : (osetL adds).length ≠ adds.length
    · rw [if_pos ha1] at h
      exact Except.noConfusion h
    rw [if_neg ha1] at h
    by_cases hca : osetInter (osetL cuts) (osetL adds) ≠ []
    · rw [if_pos hca] at h
      exact Except.noConfusion h
    rw [if_neg hca] at h
    by_cases hwa : osetInter (osetL baks) (osetL adds) ≠ []
    · rw [if_pos hwa] at h
      exact Except.noConfusion h
    rw [if_neg hwa] at h
    by_cases hlen : ((osetUnion (osetDiff (osetL baks) (osetL cuts))
        (osetL adds)).length : Int)
        ≠ (baks.length : Int) - cuts.length + adds.length
    · rw [if_pos hlen] at h
      exact Except.noConfusion h
    rw [if_neg hlen] at h
    rw [not_not] at hb1 hc1 hc2 ha1 hca hwa hlen
    have hbn : baks.Nodup := (osetL_length_iff baks).mp hb1
    have hcn : cuts.Nodup := (osetL_length_iff cuts).mp hc1
    have han : adds.Nodup := (osetL_length_iff adds).mp ha1
    simp only [osetL_eq_self_of_nodup hbn, osetL_eq_self_of_nodup hcn,
      osetL_eq_self_of_nodup han] at hc2 hca hwa hlen
    have hbrba : ked.br = some cuts ∧ ked.ba = some adds := by
      cases toad with
      | hs s2 => exact Except.noConfusion h
      | omitted =>
        have h2 : rotateKed regk dig sn cuts adds
            (osetUnion (osetDiff (osetL baks) (osetL cuts)) (osetL adds))
            (if (osetUnion (osetDiff (osetL baks) (osetL cuts))
                (osetL adds)).isEmpty then 0
             else (ample (osetUnion (osetDiff (osetL baks) (osetL cuts))
                (osetL adds)).length : Int)) = .ok ked := h
        exact rotateKed_br_ba h2
      | num n =>
        have h2 : rotateKed regk dig sn cuts adds
            (osetUnion (osetDiff (osetL baks) (osetL cuts)) (osetL adds))
            n = .ok ked := h
        exact rotateKed_br_ba h2
    exact ⟨hbn, hcn, han,
      osetUnion_nodup (osetDiff_nodup cuts hbn) han,
      osetInter_subset_of_eq hc2,
      osetInter_disjoint_of_nil hca,
      osetInter_disjoint_of_nil hwa,
      by omega, hbrba.1, hbrba.2⟩

/-- Witness for claim C5 at a concrete input: a successful rotation of a
three-backer registry cutting `B2` and adding `B4`. -/
theorem claim_C5_witness :
    Tever.rotate fxTv3 fxVrt3 1 = .ok (2, ["B1", "B3", "B4"], ["B2"], ["B4"])
      ∧ (["B1", "B3", "B4"] : List String).Nodup
      ∧ (∀ c ∈ ["B2"], c ∈ fxTv3.baks)
      ∧ (∀ x ∈ ["B2"], x ∉ ["B4"])
      ∧ (∀ x ∈ fxTv3.baks, x ∉ ["B4"])
      ∧ ["B1", "B3", "B4"] = osetUnion (osetDiff fxTv3.baks ["B2"]) ["B4"]
      ∧ (["B1", "B3", "B4"] : List String).length + 1
          = fxTv3.baks.length + 1 :=
  have hrot : Tever.rotate fxTv3 fxVrt3 1
      = .ok (2, ["B1", "B3", "B4"], ["B2"], ["B4"]) := by rfl
  have hp := claim_C5_rotation.1 fxTv3 fxVrt3 1 2 ["B1", "B3", "B4"] ["B2"]
    ["B4"] (by decide) hrot
  ⟨hrot, hp.1, hp.2.1, hp.2.2.1, hp.2.2.2.1, hp.2.2.2.2.1,
    hp.2.2.2.2.2⟩

/-! ## Claim C4: `valAnchorBigs` -/

theorem dedupByIdxAux_mem (l : List Biger) : ∀ (seen : List Nat)
    (g : Biger), g ∈ dedupByIdxAux seen l → g ∈ l ∧ g.index ∉ seen := by
  induction l with
  | nil => intro seen g hg; cases hg
  | cons x xs ih =>
    intro seen g hg
    by_cases hx : x.index ∈ seen
    · rw [dedupByIdxAux, if_pos hx] at hg
      obtain ⟨h1, h2⟩ := ih seen g hg
      exact ⟨List.mem_cons_of_mem x h1, h2⟩
    · rw [dedupByIdxAux, if_neg hx] at hg
      rcases List.mem_cons.mp hg with rfl | hg2
      · exact ⟨List.mem_cons_self g xs, hx⟩
      · obtain ⟨h1, h2⟩ := ih (x.index :: seen) g hg2
        exact ⟨List.mem_cons_of_mem x h1,
          fun hs => h2 (List.mem_cons_of_mem x.index hs)⟩

theorem dedupByIdxAux_idx_nodup (l : List Biger) : ∀ (seen : List Nat),
    ((dedupByIdxAux seen l).map (fun g => g.index)).Nodup := by
  induction l with
  | nil => intro seen; simp [dedupByIdxAux]
  | cons x xs ih =>
    intro seen
    by_cases hx : x.index ∈ seen
    · rw [dedupByIdxAux, if_pos hx]; exact ih seen
    · rw [dedupByIdxAux, if_neg hx]
      simp only [List.map_cons]
      refine List.nodup_cons.mpr ⟨fun hm => ?_, ih (x.index :: seen)⟩
      obtain ⟨g, hg, hidx⟩ := List.mem_map.mp hm
      have := (dedupByIdxAux_mem xs (x.index :: seen) g hg).2
      exact this (hidx ▸ List.mem_cons_self x.index seen)

/-- Specification of the modelled `verifySigs`: the returned signatures are
drawn from the input, verify positionally against the verifier list, carry
pairwise distinct indices, and the returned index list is their map. -/
theorem verifySigs_spec (bigers : List Biger) (verfers : List String) :
    (∀ g ∈ (verifySigs bigers verfers).1,
      g ∈ bigers ∧ g.index < verfers.length ∧
        verfers.get? g.index = some g.signer) ∧
    ((verifySigs bigers verfers).1.map (fun g => g.index)).Nodup ∧
    (verifySigs bigers verfers).2
      = (verifySigs bigers verfers).1.map (fun g => g.index) := by
  refine ⟨?_, dedupByIdxAux_idx_nodup _ [], rfl⟩
  intro g hg
  have h1 := (dedupByIdxAux_mem _ [] g hg).1
  have h2 := List.mem_filter.mp h1
  obtain ⟨hmem, hcond⟩ := h2
  simp only [Bool.and_eq_true, decide_eq_true_eq] at hcond
  exact ⟨hmem, hcond.1, hcond.2⟩

/-- The `tae` contents and write flag of `escrowALEvent`. -/
theorem escrowALEvent_tae (rg : Regs) (serder : KED) (seqner : Nat)
    (diger : Dg) (bigers : List Biger) (baks : List String) :
    ((Tever.escrowALEvent rg serder seqner diger bigers baks).1.tae
        = (aput rg.tae ⟨serder.i, serder.snat⟩ (digest serder)).1) ∧
    ((Tever.escrowALEvent rg serder seqner diger bigers baks).2
        = (aput rg.tae ⟨serder.i, serder.snat⟩ (digest serder)).2) := by
  unfold Tever.escrowALEvent
  split <;> split <;>
    simp [putTae, putAnc, putTibs, putBaks, delBaks, putTvt]

/-- Claim C4 counterexample: with the event already parked in the `tae`
escrow, an anchor miss in `valAnchorBigs` raises missing-anchor but appends
no query cue (the `tae` write returns false), contradicting the claim that a
query cue is appended. -/
theorem claim_C4_counterexample :
    fxTvNB.verifyAnchor {} fxIss 7 (.leaf "d7") = false ∧
    alookup fxRgC4.tae ⟨"V", 0⟩ = some (digest fxIss) ∧
    (Tever.valAnchorBigs fxTvNB {} fxRgC4 [] fxIss 7 (.leaf "d7") []
      (.num 0) []).2.2 = .error .missingAnchor ∧
    (Tever.valAnchorBigs fxTvNB {} fxRgC4 [] fxIss 7 (.leaf "d7") []
      (.num 0) []).2.1 = [] := by
  refine ⟨rfl, rfl, rfl, rfl⟩

/-- Claim C4 (amended): `valAnchorBigs` first verifies signatures against
backer verifiers built positionally from `baks` and deduplicates them by
index; if `verifyAnchor` fails it escrows the event anchorless (`tae`),
appends the query cue exactly when the `tae` write succeeded (i.e. the event
was not already escrowed anchorless), and raises missing-anchor; otherwise,
for external events (nonempty `baks` and promiscuous mode, or non-local with
the own registry not among the backers), it requires the number of valid
signature indices to be at least `toad`, escrowing the event partially
witnessed (`twe`) and raising missing-witness-signature when the threshold
is unmet; when all checks pass it returns the deduplicated valid
signatures. -/
theorem claim_C4_amended (tv : Tever) (db : Kels) (rg : Regs) (cs : List Cue)
    (serder : KED) (seqner : Nat) (diger : Dg) (bigers : List Biger)
    (toad : ToadV) (baks : List String) :
    (tv.verifyAnchor db serder seqner diger = false →
      Tever.valAnchorBigs tv db rg cs serder seqner diger bigers toad baks
        = ((Tever.escrowALEvent rg serder seqner diger
              (verifySigs bigers baks).1 baks).1,
           (if (Tever.escrowALEvent rg serder seqner diger
                 (verifySigs bigers baks).1 baks).2
            then cs ++ [Cue.query tv.pre seqner] else cs),
           .error .missingAnchor) ∧
      (alookup (Tever.escrowALEvent rg serder seqner diger
          (verifySigs bigers baks).1 baks).1.tae
          ⟨serder.i, serder.snat⟩).isSome = true ∧
      ((Tever.escrowALEvent rg serder seqner diger
          (verifySigs bigers baks).1 baks).2 = true ↔
        alookup rg.tae ⟨serder.i, serder.snat⟩ = none)) ∧
    (tv.verifyAnchor db serder seqner diger = true →
      ∀ n, toad = .num n →
      (externEvt tv baks = true →
        (baks.length < n →
          Tever.valAnchorBigs tv db rg cs serder seqner diger bigers toad
            baks = (rg, cs, .error .validation)) ∧
        (¬ baks.length < n → (verifySigs bigers baks).2.length < n →
          Tever.valAnchorBigs tv db rg cs serder seqner diger bigers toad
            baks = (Tever.escrowPWEvent rg serder seqner diger
              (verifySigs bigers baks).1, cs, .error .missingWitnessSig)) ∧
        (¬ baks.length < n → ¬ (verifySigs bigers baks).2.length < n →
          Tever.valAnchorBigs tv db rg cs serder seqner diger bigers toad
            baks = (rg, cs, .ok (verifySigs bigers baks).1))) ∧
      (externEvt tv baks = false →
        Tever.valAnchorBigs tv db rg cs serder seqner diger bigers toad
          baks = (rg, cs, .ok (verifySigs bigers baks).1))) := by
  constructor
  · intro hmiss
    refine ⟨?_, ?_, ?_⟩
    · simp only [Tever.valAnchorBigs, hmiss]
      simp
    · rw [(escrowALEvent_tae rg serder seqner diger
        (verifySigs bigers baks).1 baks).1]
      cases hl : alookup rg.tae ⟨serder.i, serder.snat⟩ with
      | none =>
        rw [alookup_aput_same, hl]
        rfl
      | some v =>
        rw [alookup_aput_same, hl]
        rfl
    · rw [(escrowALEvent_tae rg serder seqner diger
        (verifySigs bigers baks).1 baks).2]
      unfold aput
      cases hl : alookup rg.tae ⟨serder.i, serder.snat⟩ with
      | none => simp
      | some v => simp
  · intro hhit n htoad
    subst htoad
    constructor
    · intro hext
      refine ⟨?_, ?_, ?_⟩
      · intro hlt
        simp only [Tever.valAnchorBigs, hhit, hext]
        simp [hlt]
      · intro hge hunder
        simp only [Tever.valAnchorBigs, hhit, hext]
        simp [hge, hunder]
      · intro hge henough
        simp only [Tever.valAnchorBigs, hhit, hext]
        simp [hge, henough]
    · intro hext
      simp only [Tever.valAnchorBigs, hhit, hext]
      simp

/-- Witness for claim C4 (amended) at a concrete input: a fresh anchor miss
escrows anchorless and, the `tae` write having succeeded, appends the query
cue. -/
theorem claim_C4_witness :
    Tever.valAnchorBigs fxTvNB {} {} [] fxIss 7 (.leaf "d7") [] (.num 0) []
      = ((Tever.escrowALEvent {} fxIss 7 (.leaf "d7")
            (verifySigs [] []).1 []).1,
         (if (Tever.escrowALEvent {} fxIss 7 (.leaf "d7")
               (verifySigs [] []).1 []).2
          then [] ++ [Cue.query fxTvNB.pre 7] else []),
         .error .missingAnchor) ∧
    (alookup (Tever.escrowALEvent {} fxIss 7 (.leaf "d7")
        (verifySigs [] []).1 []).1.tae ⟨fxIss.i, fxIss.snat⟩).isSome
      = true ∧
    ((Tever.escrowALEvent {} fxIss 7 (.leaf "d7")
        (verifySigs [] []).1 []).2 = true ↔
      alookup ({} : Regs).tae ⟨fxIss.i, fxIss.snat⟩ = none) :=
  (claim_C4_amended fxTvNB {} {} [] fxIss 7 (.leaf "d7") [] (.num 0) []).1
    rfl

/-- Claim C7: submitting `iss(V, R)` before the `vcp` for `R` raises
out-of-order — but the event is escrowed under `oot[snKey(V, 0)]` (keyed by
the credential prefix, not `snKey(R, 0)` as the claim says) — and after the
`vcp` is accepted, `processEscrows` reprocesses nothing: the source's
`processEscrowOutOfOrders` only prints, so the state is unchanged, the `iss`
stays escrowed and is never applied, contradicting both the claim and the
drain's own docstring ("perform process event ... remove event digest from
oots if processed successfully"). -/
theorem claim_C7_oot_drain_stub :
    (processEvent fxSt0 fxIss 2 (kelDigest fxKel2) []).2
        = some .outOfOrder ∧
    alookup fxStA.rg.oot ⟨"V", 0⟩ = some (digest fxIss) ∧
    alookup fxStA.rg.oot ⟨fxReg, 0⟩ = none ∧
    (processEvent fxStA fxVcp 1 (kelDigest fxKel1) []).2 = none ∧
    (alookup fxStB.tevers fxReg).isSome = true ∧
    getTel fxStB.rg ⟨fxReg, 0⟩ = some (digest fxVcp) ∧
    processEscrows fxStB = fxStB ∧
    alookup (processEscrows fxStB).rg.oot ⟨"V", 0⟩ = some (digest fxIss) ∧
    getTel (processEscrows fxStB).rg ⟨nsKey fxReg "V", 0⟩ = none := by
  refine ⟨rfl, rfl, rfl, rfl, rfl, rfl, rfl, rfl, rfl⟩

theorem tvtPut_refl (rg : Regs) (pre : String) (e : KED) : TvtPut rg rg pre e :=
  ⟨fun _ _ h => h, fun _ _ => rfl, fun _ h => .inl h⟩

theorem telSame_refl (rg : Regs) : telSame rg rg := fun _ => rfl

theorem estep_refl (rg : Regs) (pre : String) (e : KED) : EStep rg rg pre e :=
  ⟨tvtPut_refl rg pre e, telSame_refl rg⟩

theorem tvtPut_of_eq {rg rg' : Regs} {pre : String} {e : KED}
    (h : rg'.tvt = (aput rg.tvt (DgK.mk pre (digest e)) e).1) :
    TvtPut rg rg' pre e := by
  constructor
  · intro k v hv
    show alookup rg'.tvt k = some v
    rw [h]
    exact alookup_aput_mono _ _ _ _ _ hv
  · intro k hk
    show alookup rg'.tvt k = alookup rg.tvt k
    rw [h]
    exact alookup_aput_ne _ _ _ _ hk
  · intro v hv
    have hv2 : alookup (aput rg.tvt (DgK.mk pre (digest e)) e).1
        (DgK.mk pre (digest e)) = some v := by
      rw [← h]; exact hv
    rcases alookup_aput_inv _ _ _ _ _ hv2 with h1 | ⟨_, h2⟩
    · exact .inl h1
    · exact .inr h2

theorem tvtPut_of_same {rg rg' : Regs} (pre : String) (e : KED)
    (h : rg'.tvt = rg.tvt) : TvtPut rg rg' pre e := by
  constructor
  · intro k v hv
    show alookup rg'.tvt k = some v
    rw [h]; exact hv
  · intro k _
    show alookup rg'.tvt k = alookup rg.tvt k
    rw [h]
  · intro v hv
    exact .inl (by rw [show getTvt rg _ = alookup rg.tvt _ from rfl, ← h]; exact hv)

theorem telPut_of_eq {rg rg' : Regs} {pre : String} {sn : Nat} {d0 : Dg}
    (h : rg'.tel = (aput rg.tel (SnK.mk pre sn) d0).1) :
    TelPut rg rg' pre sn d0 := by
  constructor
  · intro k v hv
    show alookup rg'.tel k = some v
    rw [h]
    exact alookup_aput_mono _ _ _ _ _ hv
  · intro k hk
    show alookup rg'.tel k = alookup rg.tel k
    rw [h]
    exact alookup_aput_ne _ _ _ _ hk
  · intro d hd
    have hd2 : alookup (aput rg.tel (SnK.mk pre sn) d0).1 (SnK.mk pre sn)
        = some d := by
      rw [← h]; exact hd
    rcases alookup_aput_inv _ _ _ _ _ hd2 with h1 | ⟨_, h2⟩
    · exact .inl h1
    · exact .inr h2
  · intro hn
    show alookup rg'.tel (SnK.mk pre sn) = some d0
    rw [h, alookup_aput_same]
    have hn2 : alookup rg.tel (SnK.mk pre sn) = none := hn
    rw [hn2]
    rfl

theorem telSame_of_eq {rg rg' : Regs} (h : rg'.tel = rg.tel) :
    telSame rg rg' := by
  intro k
  show alookup rg'.tel k = alookup rg.tel k
  rw [h]

/-! ## Write shapes of the store-mutating operations -/

theorem logEvent_tvt (rg : Regs) (pre : String) (sn : Nat) (e : KED)
    (sq : Nat) (dg : Dg) (bs : List Biger) (bk : List String) :
    (Tever.logEvent rg pre sn e sq dg bs bk).tvt
      = (aput rg.tvt (DgK.mk pre (digest e)) e).1 := by
  unfold Tever.logEvent
  by_cases h1 : bs ≠ [] <;> by_cases h2 : bk ≠ [] <;>
    simp [h1, h2, putTel, putTvt, tetsPin, putBaks, delBaks, putTibs, putAnc]

theorem logEvent_tel (rg : Regs) (pre : String) (sn : Nat) (e : KED)
    (sq : Nat) (dg : Dg) (bs : List Biger) (bk : List String) :
    (Tever.logEvent rg pre sn e sq dg bs bk).tel
      = (aput rg.tel (SnK.mk pre sn) (digest e)).1 := by
  unfold Tever.logEvent
  by_cases h1 : bs ≠ [] <;> by_cases h2 : bk ≠ [] <;>
    simp [h1, h2, putTel, putTvt, tetsPin, putBaks, delBaks, putTibs, putAnc]

theorem logEvent_anc (rg : Regs) (pre : String) (sn : Nat) (e : KED)
    (sq : Nat) (dg : Dg) (bs : List Biger) (bk : List String) :
    (Tever.logEvent rg pre sn e sq dg bs bk).anc
      = (aput rg.anc (DgK.mk pre (digest e)) (sq, dg)).1 := by
  unfold Tever.logEvent
  by_cases h1 : bs ≠ [] <;> by_cases h2 : bk ≠ [] <;>
    simp [h1, h2, putTel, putTvt, tetsPin, putBaks, delBaks, putTibs, putAnc]

theorem escrowAL_tvt (rg : Regs) (e : KED) (sq : Nat) (dg : Dg)
    (bgs : List Biger) (bks : List String) :
    (Tever.escrowALEvent rg e sq dg bgs bks).1.tvt
      = (aput rg.tvt (DgK.mk e.i (digest e)) e).1 := by
  unfold Tever.escrowALEvent
  by_cases h1 : bgs ≠ [] <;> by_cases h2 : bks ≠ [] <;>
    simp [h1, h2, putTae, putTvt, putBaks, delBaks, putTibs, putAnc]

theorem escrowAL_tel (rg : Regs) (e : KED) (sq : Nat) (dg : Dg)
    (bgs : List Biger) (bks : List String) :
    (Tever.escrowALEvent rg e sq dg bgs bks).1.tel = rg.tel := by
  unfold Tever.escrowALEvent
  by_cases h1 : bgs ≠ [] <;> by_cases h2 : bks ≠ [] <;>
    simp [h1, h2, putTae, putTvt, putBaks, delBaks, putTibs, putAnc]

theorem escrowPW_tvt (rg : Regs) (e : KED) (sq : Nat) (dg : Dg)
    (bgs : List Biger) :
    (Tever.escrowPWEvent rg e sq dg bgs).tvt
      = (aput rg.tvt (DgK.mk e.i (digest e)) e).1 := by
  simp [Tever.escrowPWEvent, putTwe, putTvt, putTibs, putAnc]

theorem escrowPW_tel (rg : Regs) (e : KED) (sq : Nat) (dg : Dg)
    (bgs : List Biger) :
    (Tever.escrowPWEvent rg e sq dg bgs).tel = rg.tel := by
  simp [Tever.escrowPWEvent, putTwe, putTvt, putTibs, putAnc]

theorem escrowOO_tvt (rg : Regs) (e : KED) (sq : Nat) (dg : Dg) :
    (escrowOOEvent rg e sq dg).tvt
      = (aput rg.tvt (DgK.mk e.i (digest e)) e).1 := by
  simp [escrowOOEvent, putOot, putAnc, putTvt]

theorem escrowOO_tel (rg : Regs) (e : KED) (sq : Nat) (dg : Dg) :
    (escrowOOEvent rg e sq dg).tel = rg.tel := by
  simp [escrowOOEvent, putOot, putAnc, putTvt]

theorem estep_escrowAL (rg : Regs) (e : KED) (sq : Nat) (dg : Dg)
    (bgs : List Biger) (bks : List String) :
    EStep rg (Tever.escrowALEvent rg e sq dg bgs bks).1 e.i e :=
  ⟨tvtPut_of_eq (escrowAL_tvt rg e sq dg bgs bks),
   telSame_of_eq (escrowAL_tel rg e sq dg bgs bks)⟩

theorem estep_escrowPW (rg : Regs) (e : KED) (sq : Nat) (dg : Dg)
    (bgs : List Biger) :
    EStep rg (Tever.escrowPWEvent rg e sq dg bgs) e.i e :=
  ⟨tvtPut_of_eq (escrowPW_tvt rg e sq dg bgs),
   telSame_of_eq (escrowPW_tel rg e sq dg bgs)⟩

theorem estep_escrowOO (rg : Regs) (e : KED) (sq : Nat) (dg : Dg) :
    EStep rg (escrowOOEvent rg e sq dg) e.i e :=
  ⟨tvtPut_of_eq (escrowOO_tvt rg e sq dg),
   telSame_of_eq (escrowOO_tel rg e sq dg)⟩

theorem lstep_logEvent (rg : Regs) (pre : String) (sn : Nat) (e : KED)
    (sq : Nat) (dg : Dg) (bs : List Biger) (bk : List String) :
    LStep rg (Tever.logEvent rg pre sn e sq dg bs bk) pre e sn := by
  refine ⟨tvtPut_of_eq (logEvent_tvt rg pre sn e sq dg bs bk),
    telPut_of_eq (logEvent_tel rg pre sn e sq dg bs bk), ?_⟩
  show (alookup (Tever.logEvent rg pre sn e sq dg bs bk).tvt
    (DgK.mk pre (digest e))).isSome = true
  rw [logEvent_tvt, alookup_aput_same]
  rfl

theorem lstep_ext {rg rg' rg'' : Regs} {pre : String} {e : KED} {sn : Nat}
    (h : LStep rg rg' pre e sn) (h1 : rg''.tvt = rg'.tvt)
    (h2 : rg''.tel = rg'.tel) : LStep rg rg'' pre e sn := by
  obtain ⟨⟨m1, o1, a1⟩, ⟨m2, o2, a2, p2⟩, hs⟩ := h
  refine ⟨⟨?_, ?_, ?_⟩, ⟨?_, ?_, ?_, ?_⟩, ?_⟩
  · intro k v hv
    show alookup rg''.tvt k = some v
    rw [h1]; exact m1 k v hv
  · intro k hk
    show alookup rg''.tvt k = alookup rg.tvt k
    rw [h1]; exact o1 k hk
  · intro v hv
    refine a1 v ?_
    show alookup rg'.tvt _ = some v
    rw [← h1]; exact hv
  · intro k v hv
    show alookup rg''.tel k = some v
    rw [h2]; exact m2 k v hv
  · intro k hk
    show alookup rg''.tel k = alookup rg.tel k
    rw [h2]; exact o2 k hk
  · intro d hd
    refine a2 d ?_
    show alookup rg'.tel _ = some d
    rw [← h2]; exact hd
  · intro hn
    show alookup rg''.tel _ = some (digest e)
    rw [h2]; exact p2 hn
  · show (alookup rg''.tvt _).isSome = true
    rw [h1]; exact hs

theorem chain_estep {rg rg' : Regs} {pre : String} {e : KED}
    (hw : EStep rg rg' pre e)
    (h1 : tvtKeyed rg) (h3 : telBacked rg) (hc : chainOk rg) :
    tvtKeyed rg' ∧ telBacked rg' ∧ chainOk rg' := by
  obtain ⟨⟨m1, o1, a1⟩, hts⟩ := hw
  refine ⟨?_, ?_, ?_⟩
  · intro k v hv
    by_cases hk : k = DgK.mk pre (digest e)
    · subst hk
      rcases a1 v hv with h | h
      · exact h1 _ _ h
      · subst h; rfl
    · rw [o1 k hk] at hv
      exact h1 _ _ hv
  · intro p n d hd
    rw [hts] at hd
    rcases Option.isSome_iff_exists.mp (h3 p n d hd) with ⟨v, hv⟩
    rw [m1 _ _ hv]
    rfl
  · intro p n d e' hTel hTvt
    rw [hts] at hTel
    rcases Option.isSome_iff_exists.mp (h3 p (n + 1) d hTel) with ⟨v, hv⟩
    have hv' := m1 _ _ hv
    rw [hv'] at hTvt
    have he : v = e' := Option.some_inj.mp hTvt
    subst he
    rcases hc p n d v hTel hv with ⟨dp, hdp, hp⟩
    exact ⟨dp, by rw [hts]; exact hdp, hp⟩

theorem chain_lstep {rg rg' : Regs} {pre : String} {e : KED} {sn : Nat}
    (hw : LStep rg rg' pre e sn)
    (hl : 0 < sn → getTel rg (SnK.mk pre sn) = none →
      ∃ dp, getTel rg (SnK.mk pre (sn - 1)) = some dp ∧ e.p = some dp)
    (h1 : tvtKeyed rg) (h3 : telBacked rg) (hc : chainOk rg) :
    tvtKeyed rg' ∧ telBacked rg' ∧ chainOk rg' := by
  obtain ⟨⟨m1, o1, a1⟩, ⟨m2, o2, a2, p2⟩, hs⟩ := hw
  refine ⟨?_, ?_, ?_⟩
  · intro k v hv
    by_cases hk : k = DgK.mk pre (digest e)
    · subst hk
      rcases a1 v hv with h | h
      · exact h1 _ _ h
      · subst h; rfl
    · rw [o1 k hk] at hv
      exact h1 _ _ hv
  · intro p n d hd
    by_cases hk : SnK.mk p n = SnK.mk pre sn
    · rcases a2 d (hk ▸ hd) with hOld | hNew
      · rw [SnK.mk.injEq] at hk
        obtain ⟨hp, hn⟩ := hk
        subst hp; subst hn
        rcases Option.isSome_iff_exists.mp (h3 p n d hOld) with ⟨v, hv⟩
        rw [m1 _ _ hv]
        rfl
      · subst hNew
        rw [SnK.mk.injEq] at hk
        obtain ⟨hp, _⟩ := hk
        subst hp
        exact hs
    · rw [o2 _ hk] at hd
      rcases Option.isSome_iff_exists.mp (h3 p n d hd) with ⟨v, hv⟩
      rw [m1 _ _ hv]
      rfl
  · intro p n d e' hTel hTvt
    by_cases hk : SnK.mk p (n + 1) = SnK.mk pre sn
    · rw [SnK.mk.injEq] at hk
      obtain ⟨hp, hn⟩ := hk
      subst hp
      have hsn : sn = n + 1 := hn.symm
      subst hsn
      cases holdT : getTel rg (SnK.mk p (n + 1)) with
      | some d0 =>
        have hT' := m2 _ _ holdT
        rw [hT'] at hTel
        have hd : d0 = d := Option.some_inj.mp hTel
        subst hd
        rcases Option.isSome_iff_exists.mp (h3 p (n + 1) d0 holdT) with ⟨v, hv⟩
        have hv' := m1 _ _ hv
        rw [hv'] at hTvt
        have he : v = e' := Option.some_inj.mp hTvt
        subst he
        rcases hc p n d0 v holdT hv with ⟨dp, hdp, hpp⟩
        exact ⟨dp, m2 _ _ hdp, hpp⟩
      | none =>
        have hT' := p2 holdT
        rw [hT'] at hTel
        have hd : digest e = d := Option.some_inj.mp hTel
        subst hd
        have he' : e' = e := by
          rcases a1 e' hTvt with hOld | hNew
          · exact (digest_injective (h1 _ _ hOld)).symm
          · exact hNew
        rcases hl (Nat.succ_pos n) holdT with ⟨dp, hdp, hpe⟩
        rw [Nat.succ_sub_one] at hdp
        exact ⟨dp, m2 _ _ hdp, by rw [he']; exact hpe⟩
    · rw [o2 _ hk] at hTel
      rcases Option.isSome_iff_exists.mp (h3 p (n + 1) d hTel) with ⟨v, hv⟩
      have hv' := m1 _ _ hv
      rw [hv'] at hTvt
      have he : v = e' := Option.some_inj.mp hTvt
      subst he
      rcases hc p n d v hTel hv with ⟨dp, hdp, hpp⟩
      exact ⟨dp, m2 _ _ hdp, hpp⟩

theorem valAnchorBigs_estep (tv : Tever) (db : Kels) (rg : Regs)
    (cs : List Cue) (serder : KED) (seqner : Nat) (diger : Dg)
    (bigers : List Biger) (toad : ToadV) (baks : List String) :
    EStep rg
      (tv.valAnchorBigs db rg cs serder seqner diger bigers toad baks).1
      serder.i serder := by
  simp only [Tever.valAnchorBigs]
  split
  · exact estep_escrowAL rg serder seqner diger (verifySigs bigers baks).1 baks
  · split
    · split
      · exact estep_refl rg serder.i serder
      · split
        · exact estep_refl rg serder.i serder
        · split
          · exact estep_escrowPW rg serder seqner diger
              (verifySigs bigers baks).1
          · exact estep_refl rg serder.i serder
    · exact estep_refl rg serder.i serder

theorem valAnchorBigs_cases (tv : Tever) (db : Kels) (rg : Regs)
    (cs : List Cue) (serder : KED) (seqner : Nat) (diger : Dg)
    (bigers : List Biger) (toad : ToadV) (baks : List String) :
    (tv.valAnchorBigs db rg cs serder seqner diger bigers toad baks).1 = rg ∨
    ∃ e, (tv.valAnchorBigs db rg cs serder seqner diger bigers toad baks).2.2
      = .error e := by
  simp only [Tever.valAnchorBigs]
  split
  · exact .inr ⟨.missingAnchor, rfl⟩
  · split
    · split
      · exact .inr ⟨_, rfl⟩
      · split
        · exact .inr ⟨.validation, rfl⟩
        · split
          · exact .inr ⟨.missingWitnessSig, rfl⟩
          · exact .inl rfl
    · exact .inl rfl

theorem valAnchorBigs_ok_rg {tv : Tever} {db : Kels} {rg : Regs}
    {cs : List Cue} {serder : KED} {seqner : Nat} {diger : Dg}
    {bigers : List Biger} {toad : ToadV} {baks : List String}
    {v : List Biger}
    (h : (tv.valAnchorBigs db rg cs serder seqner diger bigers toad baks).2.2
      = .ok v) :
    (tv.valAnchorBigs db rg cs serder seqner diger bigers toad baks).1
      = rg := by
  rcases valAnchorBigs_cases tv db rg cs serder seqner diger bigers toad baks
    with he | ⟨e, he⟩
  · exact he
  · rw [he] at h
    exact Except.noConfusion h

theorem issue_spec (tv : Tever) (db : Kels) (rg : Regs) (cs : List Cue)
    (serder : KED) (seqner : Nat) (diger : Dg) (sn : Nat)
    (bigers : List Biger) :
    EStep rg (tv.issue db rg cs serder seqner diger sn bigers).1
      serder.i serder ∨
    LStep rg (tv.issue db rg cs serder seqner diger sn bigers).1
      (nsKey tv.prefixer serder.i) serder sn := by
  simp only [Tever.issue]
  split
  · split
    · exact .inl (estep_refl rg serder.i serder)
    · split
      · exact .inl (estep_refl rg serder.i serder)
      · split
        · exact .inl (estep_refl rg serder.i serder)
        · split
          · exact .inl (estep_refl rg serder.i serder)
          · split
            · exact .inl (estep_escrowAL rg serder seqner diger [] [])
            · exact .inr (lstep_logEvent rg (nsKey tv.prefixer serder.i) sn
                serder seqner diger [] [])
  · split
    · exact .inl (estep_refl rg serder.i serder)
    · split
      · split
        · exact .inl (estep_refl rg serder.i serder)
        · split
          · exact .inl (estep_refl rg serder.i serder)
          · rename_i rtoad baksv hgb
            split
            · rename_i rgv csv ev heq
              have h := valAnchorBigs_estep tv db rg cs serder seqner diger
                bigers rtoad baksv
              rw [heq] at h
              exact .inl h
            · rename_i rgv csv vbigers heq
              have hok : (tv.valAnchorBigs db rg cs serder seqner diger bigers
                  rtoad baksv).2.2 = .ok vbigers := by rw [heq]
              have hrg : (tv.valAnchorBigs db rg cs serder seqner diger bigers
                  rtoad baksv).1 = rg := valAnchorBigs_ok_rg hok
              have hrgv : rgv = rg := by rw [← hrg, heq]
              subst hrgv
              exact .inr (lstep_logEvent rgv (nsKey tv.prefixer serder.i) sn
                serder seqner diger vbigers [])
      · exact .inl (estep_refl rg serder.i serder)

theorem revoke_spec (tv : Tever) (db : Kels) (rg : Regs) (cs : List Cue)
    (serder : KED) (seqner : Nat) (diger : Dg) (sn : Nat)
    (bigers : List Biger) :
    EStep rg (tv.revoke db rg cs serder seqner diger sn bigers).1
      serder.i serder ∨
    (LStep rg (tv.revoke db rg cs serder seqner diger sn bigers).1
      (nsKey tv.prefixer serder.i) serder sn ∧
     ∃ dig iserder,
       getTel rg (SnK.mk (nsKey tv.prefixer serder.i) (sn - 1)) = some dig ∧
       getTvt rg (DgK.mk (nsKey tv.prefixer serder.i) dig) = some iserder ∧
       serder.p = some (digest iserder)) := by
  simp only [Tever.revoke]
  split
  · split
    · exact .inl (estep_refl rg serder.i serder)
    · split
      · exact .inl (estep_refl rg serder.i serder)
      · rename_i dig hTel
        split
        · exact .inl (estep_refl rg serder.i serder)
        · rename_i iserder hTvt
          split
          · exact .inl (estep_refl rg serder.i serder)
          · rename_i pd hp
            split
            · exact .inl (estep_refl rg serder.i serder)
            · rename_i hne
              have hne' : digest iserder = pd := not_not.mp hne
              have hpd : serder.p = some (digest iserder) := by
                rw [hp, hne']
              split
              · exact .inl (estep_refl rg serder.i serder)
              · split
                · exact .inl (estep_escrowAL rg serder seqner diger [] [])
                · exact .inr ⟨lstep_logEvent rg (nsKey tv.prefixer serder.i)
                    sn serder seqner diger [] [],
                    dig, iserder, hTel, hTvt, hpd⟩
  · split
    · exact .inl (estep_refl rg serder.i serder)
    · split
      · exact .inl (estep_refl rg serder.i serder)
      · rename_i dig hTel
        split
        · exact .inl (estep_refl rg serder.i serder)
        · rename_i iserder hTvt
          split
          · exact .inl (estep_refl rg serder.i serder)
          · rename_i pd hp
            split
            · exact .inl (estep_refl rg serder.i serder)
            · rename_i hne
              have hne' : digest iserder = pd := not_not.mp hne
              have hpd : serder.p = some (digest iserder) := by
                rw [hp, hne']
              split
              · split
                · exact .inl (estep_refl rg serder.i serder)
                · split
                  · exact .inl (estep_refl rg serder.i serder)
                  · rename_i rtoad baksv hgb
                    split
                    · rename_i rgv csv ev heq
                      have h := valAnchorBigs_estep tv db rg cs serder seqner
                        diger bigers rtoad baksv
                      rw [heq] at h
                      exact .inl h
                    · rename_i rgv csv vbigers heq
                      have hok : (tv.valAnchorBigs db rg cs serder seqner
                          diger bigers rtoad baksv).2.2 = .ok vbigers := by
                        rw [heq]
                      have hrg : (tv.valAnchorBigs db rg cs serder seqner
                          diger bigers rtoad baksv).1 = rg :=
                        valAnchorBigs_ok_rg hok
                      have hrgv : rgv = rg := by rw [← hrg, heq]
                      subst hrgv
                      exact .inr ⟨lstep_logEvent rgv
                        (nsKey tv.prefixer serder.i) sn serder seqner diger
                        vbigers [],
                        dig, iserder, hTel, hTvt, hpd⟩
              · exact .inl (estep_refl rg serder.i serder)

theorem valAnchorBigs_estep2 {tv : Tever} {db : Kels} {rg rgv : Regs}
    {cs csv : List Cue} {serder : KED} {seqner : Nat} {diger : Dg}
    {bigers : List Biger} {toad : ToadV} {baks : List String}
    {res : Except Err (List Biger)}
    (heq : tv.valAnchorBigs db rg cs serder seqner diger bigers toad baks
      = (rgv, csv, res)) : EStep rg rgv serder.i serder := by
  have h := valAnchorBigs_estep tv db rg cs serder seqner diger bigers toad
    baks
  rw [heq] at h
  exact h

theorem valAnchorBigs_ok_rg2 {tv : Tever} {db : Kels} {rg rgv : Regs}
    {cs csv : List Cue} {serder : KED} {seqner : Nat} {diger : Dg}
    {bigers : List Biger} {toad : ToadV} {baks : List String}
    {vb : List Biger}
    (heq : tv.valAnchorBigs db rg cs serder seqner diger bigers toad baks
      = (rgv, csv, .ok vb)) : rgv = rg := by
  have hok : (tv.valAnchorBigs db rg cs serder seqner diger bigers toad
      baks).2.2 = .ok vb := by rw [heq]
  have h := valAnchorBigs_ok_rg hok
  rw [heq] at h
  exact h

theorem validateSN_true_zero {s : String} {n : Nat}
    (h : validateSN s true = .ok n) : n = 0 := by
  unfold validateSN at h
  split at h
  · exact Except.noConfusion h
  · split at h
    · exact Except.noConfusion h
    · split at h
      · exact Except.noConfusion h
      · rw [if_pos rfl] at h
        split at h
        · injection h with h
          exact h.symm
        · exact Except.noConfusion h

theorem osetL_toad_cond (baks : List String) (toad : Nat)
    (hlen : (osetL baks).length = baks.length)
    (h : ¬(if baks ≠ [] then toad < 1 ∨ baks.length < toad
           else toad ≠ 0)) :
    ¬(if osetL baks ≠ [] then toad < 1 ∨ (osetL baks).length < toad
      else toad ≠ 0) := by
  by_cases hb : baks = []
  · subst hb
    exact h
  · have hb2 : osetL baks ≠ [] := by
      intro h0
      apply hb
      have h1 : baks.length = 0 := by rw [← hlen, h0]; rfl
      exact List.length_eq_zero.mp h1
    rw [if_pos hb] at h
    rw [if_pos hb2, hlen]
    exact h

theorem stateTSN_isOk (tv : Tever) (rg : Regs)
    (hilk : tv.ilk = .vcp ∨ tv.ilk = .vrt)
    (hb : (osetL tv.baks).length = tv.baks.length)
    (ht : ¬(if osetL tv.baks ≠ [] then
              tv.toad < 1 ∨ (osetL tv.baks).length < tv.toad
            else tv.toad ≠ 0))
    (hc : (osetL tv.cuts).length = tv.cuts.length)
    (ha : (osetL tv.adds).length = tv.adds.length)
    (han : (getAnc rg (DgK.mk (tv.regk.getD "") (digest tv.serder))).isSome
      = true) :
    ∃ tsn, tv.stateTSN rg = .ok tsn := by
  rcases Option.isSome_iff_exists.mp han with ⟨couple, hcouple⟩
  have hilk2 : ¬(tv.ilk ≠ .vcp ∧ tv.ilk ≠ .vrt) := by
    rcases hilk with h | h <;> simp [h]
  simp only [Tever.stateTSN, hcouple]
  rw [if_neg hilk2, if_neg (not_not.mpr hb), if_neg ht,
    if_neg (not_not.mpr hc), if_neg (not_not.mpr ha)]
  exact ⟨_, rfl⟩

theorem stateTSN_not_error {tv : Tever} {rg : Regs} {e : Err}
    (heq : tv.stateTSN rg = .error e)
    (hilk : tv.ilk = .vcp ∨ tv.ilk = .vrt)
    (hb : (osetL tv.baks).length = tv.baks.length)
    (ht : ¬(if osetL tv.baks ≠ [] then
              tv.toad < 1 ∨ (osetL tv.baks).length < tv.toad
            else tv.toad ≠ 0))
    (hc : (osetL tv.cuts).length = tv.cuts.length)
    (ha : (osetL tv.adds).length = tv.adds.length)
    (han : (getAnc rg (DgK.mk (tv.regk.getD "") (digest tv.serder))).isSome
      = true) :
    False := by
  obtain ⟨tsn, hok⟩ := stateTSN_isOk tv rg hilk hb ht hc ha han
  rw [heq] at hok
  exact Except.noConfusion hok

theorem statesPin_tvt (rg : Regs) (k : String) (v : TSN) :
    (statesPin rg k v).tvt = rg.tvt := rfl

theorem statesPin_tel (rg : Regs) (k : String) (v : TSN) :
    (statesPin rg k v).tel = rg.tel := rfl

/-- Write shape of `Tever.__init__`: on failure only the event body may have
been escrowed (never the first-seen index — the snapshot rebuild cannot fail
after a logged inception, since it rechecks exactly the inception guards);
on success the inception is logged at sn 0 under the registry prefix. -/
theorem teverIncept_spec (db : Kels) (rg : Regs) (cs : List Cue)
    (regk : Option String) (loc : Bool) (serder : KED) (seqner : Nat)
    (diger : Dg) (bigers : List Biger) :
    (EStep rg (teverIncept db rg cs regk loc serder seqner diger bigers).1
      serder.i serder ∧
     ∀ tv, (teverIncept db rg cs regk loc serder seqner diger bigers).2.2
       ≠ .ok tv) ∨
    (LStep rg (teverIncept db rg cs regk loc serder seqner diger bigers).1
      serder.i serder 0 ∧
     ∃ tv, (teverIncept db rg cs regk loc serder seqner diger bigers).2.2
       = .ok tv ∧ tv.prefixer = serder.i ∧ tv.sn = 0 ∧ tv.serder = serder) := by
  simp only [teverIncept]
  split
  · exact .inl ⟨estep_refl rg serder.i serder, fun tv h => Except.noConfusion h⟩
  · split
    · exact .inl ⟨estep_refl rg serder.i serder,
        fun tv h => Except.noConfusion h⟩
    · split
      · exact .inl ⟨estep_refl rg serder.i serder,
          fun tv h => Except.noConfusion h⟩
      · rename_i pre hii
        split
        · exact .inl ⟨estep_refl rg serder.i serder,
            fun tv h => Except.noConfusion h⟩
        · split
          · exact .inl ⟨estep_refl rg serder.i serder,
              fun tv h => Except.noConfusion h⟩
          · split
            · exact .inl ⟨estep_refl rg serder.i serder,
                fun tv h => Except.noConfusion h⟩
            · rename_i baks hser
              split
              · exact .inl ⟨estep_refl rg serder.i serder,
                  fun tv h => Except.noConfusion h⟩
              · rename_i hbl
                split
                · exact .inl ⟨estep_refl rg serder.i serder,
                    fun tv h => Except.noConfusion h⟩
                · split
                  · exact .inl ⟨estep_refl rg serder.i serder,
                      fun tv h => Except.noConfusion h⟩
                  · rename_i toad hpy
                    split
                    · split
                      · exact .inl ⟨estep_refl rg serder.i serder,
                          fun tv h => Except.noConfusion h⟩
                      · rename_i hbne hbound
                        split
                        · rename_i rgv csv ev heq
                          exact .inl ⟨valAnchorBigs_estep2 heq,
                            fun tv h => Except.noConfusion h⟩
                        · rename_i rgv csv vbigers heq
                          have hrgv : rgv = rg := valAnchorBigs_ok_rg2 heq
                          subst hrgv
                          split
                          · rename_i e2 heq2
                            exact absurd heq2 (fun hx =>
                              stateTSN_not_error hx (Or.inl rfl)
                                (not_ne_iff.mp hbl)
                                (osetL_toad_cond baks toad (not_ne_iff.mp hbl)
                                  (by rw [if_pos hbne]; exact hbound))
                                rfl rfl
                                (by
                                  show (alookup (Tever.logEvent rgv serder.i 0
                                    serder seqner diger vbigers baks).anc
                                    (DgK.mk serder.i (digest serder))).isSome
                                    = true
                                  rw [logEvent_anc, alookup_aput_same]
                                  rfl))
                          · rename_i tsn heq2
                            exact .inr ⟨lstep_ext (lstep_logEvent rgv serder.i 0
                              serder seqner diger vbigers baks) rfl rfl,
                              _, rfl, rfl, rfl, rfl⟩
                    · split
                      · exact .inl ⟨estep_refl rg serder.i serder,
                          fun tv h => Except.noConfusion h⟩
                      · rename_i hbe hz
                        split
                        · rename_i rgv csv ev heq
                          exact .inl ⟨valAnchorBigs_estep2 heq,
                            fun tv h => Except.noConfusion h⟩
                        · rename_i rgv csv vbigers heq
                          have hrgv : rgv = rg := valAnchorBigs_ok_rg2 heq
                          subst hrgv
                          split
                          · rename_i e2 heq2
                            exact absurd heq2 (fun hx =>
                              stateTSN_not_error hx (Or.inl rfl)
                                (not_ne_iff.mp hbl)
                                (osetL_toad_cond baks toad (not_ne_iff.mp hbl)
                                  (by rw [if_neg hbe]; exact hz))
                                rfl rfl
                                (by
                                  show (alookup (Tever.logEvent rgv serder.i 0
                                    serder seqner diger vbigers baks).anc
                                    (DgK.mk serder.i (digest serder))).isSome
                                    = true
                                  rw [logEvent_anc, alookup_aput_same]
                                  rfl))
                          · rename_i tsn heq2
                            exact .inr ⟨lstep_ext (lstep_logEvent rgv serder.i 0
                              serder seqner diger vbigers baks) rfl rfl,
                              _, rfl, rfl, rfl, rfl⟩

/-- Write shape of `Tever.update`: either nothing was logged (at most an
escrow of the event body, in-memory state untouched), or a credential event
was logged under the namespaced key with the prior-digest facts of `revoke`,
or a rotation was logged at the next registry sequence number with `p`
matching the current tip. -/
theorem update_spec (tv : Tever) (db : Kels) (rg : Regs) (cs : List Cue)
    (serder : KED) (seqner : Nat) (diger : Dg) (bigers : List Biger) :
    ((tv.update db rg cs serder seqner diger bigers).1 = tv ∧
     EStep rg (tv.update db rg cs serder seqner diger bigers).2.1
       serder.i serder) ∨
    ((tv.update db rg cs serder seqner diger bigers).1 = tv ∧
     ∃ sn, LStep rg (tv.update db rg cs serder seqner diger bigers).2.1
         (nsKey tv.prefixer serder.i) serder sn ∧
       (0 < sn → ∃ dig iserder,
         getTel rg (SnK.mk (nsKey tv.prefixer serder.i) (sn - 1))
           = some dig ∧
         getTvt rg (DgK.mk (nsKey tv.prefixer serder.i) dig)
           = some iserder ∧
         serder.p = some (digest iserder))) ∨
    (serder.t = .vrt ∧ serder.i = tv.prefixer ∧
     serder.p = some (digest tv.serder) ∧
     (tv.update db rg cs serder seqner diger bigers).1.prefixer
       = tv.prefixer ∧
     (tv.update db rg cs serder seqner diger bigers).1.sn = tv.sn + 1 ∧
     (tv.update db rg cs serder seqner diger bigers).1.serder = serder ∧
     LStep rg (tv.update db rg cs serder seqner diger bigers).2.1
       tv.prefixer serder (tv.sn + 1)) := by
  simp only [Tever.update]
  split
  · exact .inl ⟨rfl, estep_refl rg serder.i serder⟩
  · rename_i sn hsn
    split
    · rename_i hvrt
      split
      · exact .inl ⟨rfl, estep_refl rg serder.i serder⟩
      · split
        · exact .inl ⟨rfl, estep_refl rg serder.i serder⟩
        · rename_i toad baksr cutsr addsr hrot
          obtain ⟨hp, hi, hsneq⟩ :=
            rotate_ok_gates tv serder sn (toad, baksr, cutsr, addsr) hrot
          subst hsneq
          split
          · rename_i rgv csv ev heq
            exact .inl ⟨rfl, valAnchorBigs_estep2 heq⟩
          · rename_i rgv csv vbigers heq
            have hrgv : rgv = rg := valAnchorBigs_ok_rg2 heq
            subst hrgv
            split
            · exact .inr (.inr ⟨hvrt, hi, hp, rfl, rfl, rfl,
                lstep_ext (lstep_logEvent rgv tv.prefixer (tv.sn + 1) serder
                  seqner diger vbigers baksr) rfl rfl⟩)
            · exact .inr (.inr ⟨hvrt, hi, hp, rfl, rfl, rfl,
                lstep_ext (lstep_logEvent rgv tv.prefixer (tv.sn + 1) serder
                  seqner diger vbigers baksr) rfl rfl⟩)
    · split
      · rename_i hvrt hib
        rcases hI : tv.issue db rg cs serder seqner diger sn bigers
          with ⟨rgi, csi, erri⟩
        have hs := issue_spec tv db rg cs serder seqner diger sn bigers
        rw [hI] at hs
        have hzero : sn = 0 := by
          rw [decide_eq_true hib] at hsn
          exact validateSN_true_zero hsn
        rcases hs with hE | hL
        · exact .inl ⟨rfl, hE⟩
        · exact .inr (.inl ⟨rfl, sn, hL,
            fun h0 => absurd (hzero ▸ h0) (Nat.lt_irrefl 0)⟩)
      · split
        · rename_i hvrt hib hrb
          rcases hR : tv.revoke db rg cs serder seqner diger sn bigers
            with ⟨rgr, csr, errr⟩
          have hs := revoke_spec tv db rg cs serder seqner diger sn bigers
          rw [hR] at hs
          rcases hs with hE | ⟨hL, hlink⟩
          · exact .inl ⟨rfl, hE⟩
          · exact .inr (.inl ⟨rfl, sn, hL, fun _ => hlink⟩)
        · exact .inl ⟨rfl, estep_refl rg serder.i serder⟩

theorem tvyInv_estep {st : TvySt} {rg' : Regs} {p : String} {e : KED}
    (cs' : List Cue) (h : TvyInv st) (hw : EStep st.rg rg' p e) :
    TvyInv { st with rg := rg', cues := cs' } := by
  obtain ⟨h1, h3, hc, hv, hr⟩ := h
  obtain ⟨hk1, hk3, hkc⟩ := chain_estep hw h1 h3 hc
  refine ⟨hk1, hk3, hkc, ?_, ?_⟩
  · intro k tv hTk
    obtain ⟨ha, hb, hcc, hd⟩ := hv k tv hTk
    refine ⟨ha, hb, ?_, ?_⟩
    · show getTel rg' (SnK.mk k tv.sn) = some (digest tv.serder)
      rw [hw.2]
      exact hcc
    · intro m hm
      show getTel rg' (SnK.mk k m) = none
      rw [hw.2]
      exact hd m hm
  · intro k hvp hTk n
    show getTel rg' (SnK.mk k n) = none
    rw [hw.2]
    exact hr k hvp hTk n

theorem tvyInv_repin {st : TvySt} {rg' : Regs} {p : String} {e : KED}
    {k0 : String} {tv0 : Tever} (cs' : List Cue)
    (h : TvyInv st) (hw : EStep st.rg rg' p e)
    (hT : alookup st.tevers k0 = some tv0) :
    TvyInv { st with
      rg := rg', cues := cs',
      tevers := apin st.tevers k0 tv0 } := by
  obtain ⟨h1, h3, hc, hv, hr⟩ := h
  obtain ⟨hk1, hk3, hkc⟩ := chain_estep hw h1 h3 hc
  refine ⟨hk1, hk3, hkc, ?_, ?_⟩
  · intro k tv hTk
    have hTk2 : alookup (apin st.tevers k0 tv0) k = some tv := hTk
    have hold : alookup st.tevers k = some tv := by
      by_cases hkk : k = k0
      · subst hkk
        rw [alookup_apin_same] at hTk2
        rw [← Option.some_inj.mp hTk2]
        exact hT
      · rw [alookup_apin_ne _ _ _ _ hkk] at hTk2
        exact hTk2
    obtain ⟨ha, hb, hcc, hd⟩ := hv k tv hold
    refine ⟨ha, hb, ?_, ?_⟩
    · show getTel rg' (SnK.mk k tv.sn) = some (digest tv.serder)
      rw [hw.2]
      exact hcc
    · intro m hm
      show getTel rg' (SnK.mk k m) = none
      rw [hw.2]
      exact hd m hm
  · intro k hvp hTk n
    have hTk2 : alookup (apin st.tevers k0 tv0) k = none := hTk
    by_cases hkk : k = k0
    · subst hkk
      rw [alookup_apin_same] at hTk2
      exact Option.noConfusion hTk2
    · rw [alookup_apin_ne _ _ _ _ hkk] at hTk2
      show getTel rg' (SnK.mk k n) = none
      rw [hw.2]
      exact hr k hvp hTk2 n

theorem tvyInv_incept {st : TvySt} {rg' : Regs} {e : KED} {tvN : Tever}
    (cs' : List Cue) (h : TvyInv st) (hL : LStep st.rg rg' e.i e 0)
    (hpre : tvN.prefixer = e.i) (hsn0 : tvN.sn = 0) (hsd : tvN.serder = e)
    (hvp : validPre e.i = true)
    (hT : alookup st.tevers e.i = none) :
    TvyInv { st with
      rg := rg', cues := cs',
      tevers := apin st.tevers e.i tvN } := by
  obtain ⟨h1, h3, hc, hv, hr⟩ := h
  obtain ⟨hk1, hk3, hkc⟩ := chain_lstep hL
    (fun h0 _ => absurd h0 (Nat.lt_irrefl 0)) h1 h3 hc
  refine ⟨hk1, hk3, hkc, ?_, ?_⟩
  · intro k tv hTk
    have hTk2 : alookup (apin st.tevers e.i tvN) k = some tv := hTk
    by_cases hkk : k = e.i
    · subst hkk
      rw [alookup_apin_same] at hTk2
      have htv : tvN = tv := Option.some_inj.mp hTk2
      subst htv
      refine ⟨hpre, hvp, ?_, ?_⟩
      · show getTel rg' (SnK.mk e.i tvN.sn) = some (digest tvN.serder)
        rw [hsn0, hsd]
        exact hL.2.1.put (hr e.i hvp hT 0)
      · intro m hm
        show getTel rg' (SnK.mk e.i m) = none
        have hm0 : 0 < m := hsn0 ▸ hm
        have hoff : SnK.mk e.i m ≠ SnK.mk e.i 0 := by
          intro hx
          have hmm : m = 0 := congrArg SnK.sn hx
          exact absurd (hmm ▸ hm0) (Nat.lt_irrefl 0)
        rw [hL.2.1.off _ hoff]
        exact hr e.i hvp hT m
    · rw [alookup_apin_ne _ _ _ _ hkk] at hTk2
      obtain ⟨ha, hb, hcc, hd⟩ := hv k tv hTk2
      refine ⟨ha, hb, ?_, ?_⟩
      · show getTel rg' (SnK.mk k tv.sn) = some (digest tv.serder)
        exact hL.2.1.mono _ _ hcc
      · intro m hm
        show getTel rg' (SnK.mk k m) = none
        rw [hL.2.1.off _ (fun hx => hkk (congrArg SnK.pre hx))]
        exact hd m hm
  · intro k hvpk hTk n
    have hTk2 : alookup (apin st.tevers e.i tvN) k = none := hTk
    by_cases hkk : k = e.i
    · subst hkk
      rw [alookup_apin_same] at hTk2
      exact Option.noConfusion hTk2
    · rw [alookup_apin_ne _ _ _ _ hkk] at hTk2
      show getTel rg' (SnK.mk k n) = none
      rw [hL.2.1.off _ (fun hx => hkk (congrArg SnK.pre hx))]
      exact hr k hvpk hTk2 n

theorem tvyInv_vrt {st : TvySt} {rg' : Regs} {e : KED} {k0 : String}
    {tv0 tv2 : Tever} (cs' : List Cue)
    (h : TvyInv st) (hT : alookup st.tevers k0 = some tv0)
    (hL : LStep st.rg rg' tv0.prefixer e (tv0.sn + 1))
    (hp : e.p = some (digest tv0.serder))
    (h2p : tv2.prefixer = tv0.prefixer) (h2s : tv2.sn = tv0.sn + 1)
    (h2e : tv2.serder = e) :
    TvyInv { st with
      rg := rg', cues := cs',
      tevers := apin st.tevers k0 tv2 } := by
  obtain ⟨h1, h3, hc, hv, hr⟩ := h
  obtain ⟨hpre, hvp, htip, hhi⟩ := hv k0 tv0 hT
  have htipP : getTel st.rg (SnK.mk tv0.prefixer tv0.sn)
      = some (digest tv0.serder) := by rw [hpre]; exact htip
  have hhiP : ∀ m, tv0.sn < m →
      getTel st.rg (SnK.mk tv0.prefixer m) = none := by
    intro m hm
    rw [hpre]
    exact hhi m hm
  obtain ⟨hk1, hk3, hkc⟩ := chain_lstep hL
    (fun _ _ => ⟨digest tv0.serder,
      by rw [Nat.add_sub_cancel]; exact htipP, hp⟩) h1 h3 hc
  refine ⟨hk1, hk3, hkc, ?_, ?_⟩
  · intro k tv hTk
    have hTk2 : alookup (apin st.tevers k0 tv2) k = some tv := hTk
    by_cases hkk : k = k0
    · subst hkk
      rw [alookup_apin_same] at hTk2
      have htv : tv2 = tv := Option.some_inj.mp hTk2
      subst htv
      refine ⟨by rw [h2p]; exact hpre, hvp, ?_, ?_⟩
      · show getTel rg' (SnK.mk k tv2.sn) = some (digest tv2.serder)
        rw [h2s, h2e, ← hpre]
        exact hL.2.1.put (hhiP (tv0.sn + 1) (Nat.lt_succ_self _))
      · intro m hm
        show getTel rg' (SnK.mk k m) = none
        have hm' : tv0.sn + 1 < m := h2s ▸ hm
        have hoff : SnK.mk k m ≠ SnK.mk tv0.prefixer (tv0.sn + 1) := by
          intro hx
          have hmm : m = tv0.sn + 1 := congrArg SnK.sn hx
          exact absurd (hmm ▸ hm') (Nat.lt_irrefl _)
        rw [hL.2.1.off _ hoff, ← hpre]
        exact hhiP m (Nat.lt_of_succ_lt hm')
    · rw [alookup_apin_ne _ _ _ _ hkk] at hTk2
      obtain ⟨ha, hb, hcc, hd⟩ := hv k tv hTk2
      have hoffk : ∀ m, SnK.mk k m ≠ SnK.mk tv0.prefixer (tv0.sn + 1) := by
        intro m hx
        have h1x : k = tv0.prefixer := congrArg SnK.pre hx
        exact hkk (h1x.trans hpre)
      refine ⟨ha, hb, ?_, ?_⟩
      · show getTel rg' (SnK.mk k tv.sn) = some (digest tv.serder)
        exact hL.2.1.mono _ _ hcc
      · intro m hm
        show getTel rg' (SnK.mk k m) = none
        rw [hL.2.1.off _ (hoffk m)]
        exact hd m hm
  · intro k hvpk hTk n
    have hTk2 : alookup (apin st.tevers k0 tv2) k = none := hTk
    by_cases hkk : k = k0
    · subst hkk
      rw [alookup_apin_same] at hTk2
      exact Option.noConfusion hTk2
    · rw [alookup_apin_ne _ _ _ _ hkk] at hTk2
      show getTel rg' (SnK.mk k n) = none
      rw [hL.2.1.off _ (fun hx =>
        hkk ((congrArg SnK.pre hx : k = tv0.prefixer).trans hpre))]
      exact hr k hvpk hTk2 n

theorem tvyInv_cred {st : TvySt} {rg' : Regs} {e : KED} {k0 : String}
    {tv0 : Tever} {sn : Nat} (cs' : List Cue)
    (h : TvyInv st) (hT : alookup st.tevers k0 = some tv0)
    (hL : LStep st.rg rg' (nsKey tv0.prefixer e.i) e sn)
    (hlink : 0 < sn → ∃ dig iserder,
      getTel st.rg (SnK.mk (nsKey tv0.prefixer e.i) (sn - 1)) = some dig ∧
      getTvt st.rg (DgK.mk (nsKey tv0.prefixer e.i) dig) = some iserder ∧
      e.p = some (digest iserder)) :
    TvyInv { st with
      rg := rg', cues := cs',
      tevers := apin st.tevers k0 tv0 } := by
  obtain ⟨h1, h3, hc, hv, hr⟩ := h
  obtain ⟨hk1, hk3, hkc⟩ := chain_lstep hL
    (fun h0 _ => by
      obtain ⟨dig, iserder, hTel, hTvt, hpe⟩ := hlink h0
      have hdd : dig = digest iserder := h1 _ _ hTvt
      exact ⟨dig, hTel, by rw [hpe, hdd]⟩) h1 h3 hc
  refine ⟨hk1, hk3, hkc, ?_, ?_⟩
  · intro k tv hTk
    have hTk2 : alookup (apin st.tevers k0 tv0) k = some tv := hTk
    have hold : alookup st.tevers k = some tv := by
      by_cases hkk : k = k0
      · subst hkk
        rw [alookup_apin_same] at hTk2
        rw [← Option.some_inj.mp hTk2]
        exact hT
      · rw [alookup_apin_ne _ _ _ _ hkk] at hTk2
        exact hTk2
    obtain ⟨ha, hb, hcc, hd⟩ := hv k tv hold
    have hknv : ∀ m, SnK.mk k m ≠ SnK.mk (nsKey tv0.prefixer e.i) sn := by
      intro m hx
      exact validPre_ne_nsKey hb tv0.prefixer e.i (congrArg SnK.pre hx)
    refine ⟨ha, hb, ?_, ?_⟩
    · show getTel rg' (SnK.mk k tv.sn) = some (digest tv.serder)
      exact hL.2.1.mono _ _ hcc
    · intro m hm
      show getTel rg' (SnK.mk k m) = none
      rw [hL.2.1.off _ (hknv m)]
      exact hd m hm
  · intro k hvpk hTk n
    have hTk2 : alookup (apin st.tevers k0 tv0) k = none := hTk
    by_cases hkk : k = k0
    · subst hkk
      rw [alookup_apin_same] at hTk2
      exact Option.noConfusion hTk2
    · rw [alookup_apin_ne _ _ _ _ hkk] at hTk2
      show getTel rg' (SnK.mk k n) = none
      rw [hL.2.1.off _ (fun hx =>
        validPre_ne_nsKey hvpk tv0.prefixer e.i (congrArg SnK.pre hx))]
      exact hr k hvpk hTk2 n

theorem tvyInv_rgsame {st st' : TvySt} (h : TvyInv st)
    (h1 : st'.rg.tvt = st.rg.tvt) (h2 : st'.rg.tel = st.rg.tel)
    (h3 : st'.tevers = st.tevers) : TvyInv st' := by
  obtain ⟨ha, hb, hc, hd, he⟩ := h
  refine ⟨?_, ?_, ?_, ?_, ?_⟩
  · intro k e hv
    refine ha k e ?_
    show alookup st.rg.tvt k = some e
    rw [← h1]
    exact hv
  · intro p n d hd2
    have hd3 : alookup st.rg.tel (SnK.mk p n) = some d := by
      rw [← h2]; exact hd2
    rcases Option.isSome_iff_exists.mp (hb p n d hd3) with ⟨v, hv⟩
    have hv2 : alookup st.rg.tvt (DgK.mk p d) = some v := hv
    show (alookup st'.rg.tvt (DgK.mk p d)).isSome = true
    rw [h1, hv2]
    rfl
  · intro p n d e hT hV
    have hT2 : alookup st.rg.tel (SnK.mk p (n + 1)) = some d := by
      rw [← h2]; exact hT
    have hV2 : alookup st.rg.tvt (DgK.mk p d) = some e := by
      rw [← h1]; exact hV
    obtain ⟨dp, hdp, hp⟩ := hc p n d e hT2 hV2
    refine ⟨dp, ?_, hp⟩
    show alookup st'.rg.tel (SnK.mk p n) = some dp
    rw [h2]
    exact hdp
  · intro k tv hT
    have hT2 : alookup st.tevers k = some tv := by rw [← h3]; exact hT
    obtain ⟨ha2, hb2, hc2, hd2⟩ := hd k tv hT2
    refine ⟨ha2, hb2, ?_, ?_⟩
    · show alookup st'.rg.tel (SnK.mk k tv.sn) = some (digest tv.serder)
      rw [h2]
      exact hc2
    · intro m hm
      show alookup st'.rg.tel (SnK.mk k m) = none
      rw [h2]
      exact hd2 m hm
  · intro k hvp hT n
    have hT2 : alookup st.tevers k = none := by rw [← h3]; exact hT
    show alookup st'.rg.tel (SnK.mk k n) = none
    rw [h2]
    exact he k hvp hT2 n

theorem registryKey_vcp {serder : KED} {regk : String}
    (h : registryKey serder = .ok regk) (ht : serder.t = .vcp) :
    regk = serder.i := by
  unfold registryKey at h
  rw [ht] at h
  have h2 : (Except.ok serder.i : Except Err String) = Except.ok regk := h
  injection h2 with h2
  exact h2.symm

theorem processGated_inv (st : TvySt) (regk pre : String) (sn : Nat)
    (serder : KED) (seqner : Nat) (diger : Dg) (wigers : List Biger)
    (h : TvyInv st)
    (hvcp : serder.t = .vcp → regk = serder.i ∧ validPre serder.i = true) :
    TvyInv (processGated st regk pre sn serder seqner diger wigers).1 := by
  simp only [processGated]
  split
  · rename_i hT
    split
    · rename_i hv
      obtain ⟨hrk, hvp⟩ := hvcp hv
      subst hrk
      rcases hI : teverIncept st.db st.rg st.cues st.regk st.loc serder
        seqner diger wigers with ⟨rgI, csI, resI⟩
      rcases teverIncept_spec st.db st.rg st.cues st.regk st.loc serder
        seqner diger wigers with ⟨hE, hnok⟩ | ⟨hL, tvN, hok, hNp, hNs, hNe⟩
      · rw [hI] at hE hnok
        cases resI with
        | error e => exact tvyInv_estep csI h hE
        | ok tvI => exact absurd rfl (hnok tvI)
      · rw [hI] at hL hok
        cases resI with
        | error e => exact Except.noConfusion hok
        | ok tvI =>
          have hok2 : (Except.ok tvI : Except Err Tever) = .ok tvN := hok
          injection hok2 with htv
          exact tvyInv_incept csI h hL (htv.symm ▸ hNp) (htv.symm ▸ hNs)
            (htv.symm ▸ hNe) hvp hT
    · exact tvyInv_estep st.cues h (estep_escrowOO st.rg serder seqner diger)
  · rename_i tv hT
    have hupd : TvyInv { st with
        rg := (tv.update st.db st.rg st.cues serder seqner diger wigers).2.1,
        cues :=
          (tv.update st.db st.rg st.cues serder seqner diger wigers).2.2.1,
        tevers := apin st.tevers regk
          (tv.update st.db st.rg st.cues serder seqner diger wigers).1 } := by
      rcases hU : tv.update st.db st.rg st.cues serder seqner diger wigers
        with ⟨tv2, rgU, csU, errU⟩
      have hsp := update_spec tv st.db st.rg st.cues serder seqner diger
        wigers
      rw [hU] at hsp
      rcases hsp with ⟨htv2, hE⟩ | ⟨htv2, snL, hL, hlink⟩ |
        ⟨hvrt, hi, hp, h2p, h2s, h2e, hL⟩
      · have htv2' : tv2 = tv := htv2
        subst htv2'
        exact tvyInv_repin csU h hE hT
      · have htv2' : tv2 = tv := htv2
        subst htv2'
        exact tvyInv_cred csU h hT hL hlink
      · exact tvyInv_vrt csU h hT hL hp h2p h2s h2e
    split
    · exact h
    · split
      · split
        · exact tvyInv_estep st.cues h
            (estep_escrowOO st.rg serder seqner diger)
        · split
          · exact hupd
          · exact h
      · split
        · exact tvyInv_estep st.cues h
            (estep_escrowOO st.rg serder seqner diger)
        · split
          · exact hupd
          · exact h

theorem processEvent_inv (st : TvySt) (serder : KED) (seqner : Nat)
    (diger : Dg) (wigers : List Biger) (h : TvyInv st) :
    TvyInv (processEvent st serder seqner diger wigers).1 := by
  simp only [processEvent]
  split
  · exact h
  · rename_i hvp
    split
    · exact h
    · rename_i regk hRK
      split
      · exact h
      · rename_i sn hSN
        split
        · rename_i myregk hmy
          split
          · split
            · exact h
            · exact processGated_inv st regk serder.i sn serder seqner diger
                wigers h
                (fun hv => ⟨registryKey_vcp hRK hv, not_not.mp hvp⟩)
          · split
            · exact h
            · exact processGated_inv st regk serder.i sn serder seqner diger
                wigers h
                (fun hv => ⟨registryKey_vcp hRK hv, not_not.mp hvp⟩)
        · exact processGated_inv st regk serder.i sn serder seqner diger
            wigers h
            (fun hv => ⟨registryKey_vcp hRK hv, not_not.mp hvp⟩)

theorem foldl_pres {α : Type} (f : TvySt → α → TvySt) (P : TvySt → Prop)
    (hf : ∀ s a, P s → P (f s a)) :
    ∀ (l : List α) (s : TvySt), P s → P (l.foldl f s)
  | [], _, hs => hs
  | a :: l, s, hs => foldl_pres f P hf l (f s a) (hf s a hs)

theorem tvyInv_unescrow (st : TvySt) (ent : SnK × Dg) (h : TvyInv st) :
    TvyInv (unescrowTae st ent) := by
  simp only [unescrowTae]
  split
  · exact tvyInv_rgsame h rfl rfl rfl
  · rename_i tserder hTvt
    split
    · exact tvyInv_rgsame h rfl rfl rfl
    · rename_i couple hAnc
      rcases hPE : processEvent st tserder couple.1 couple.2
          (getTibs st.rg (DgK.mk ent.1.pre ent.2)) with ⟨st2, err⟩
      have hi2 : TvyInv st2 := by
        have hi := processEvent_inv st tserder couple.1 couple.2
          (getTibs st.rg (DgK.mk ent.1.pre ent.2)) h
        rw [hPE] at hi
        exact hi
      cases err with
      | none => exact tvyInv_rgsame hi2 rfl rfl rfl
      | some e => cases e <;> exact tvyInv_rgsame hi2 rfl rfl rfl

theorem processEscrows_inv (st : TvySt) (h : TvyInv st) :
    TvyInv (processEscrows st) := by
  simp only [processEscrows, processEscrowOutOfOrders,
    processEscrowAnchorless]
  exact foldl_pres unescrowTae TvyInv (fun s a hs => tvyInv_unescrow s a hs)
    st.rg.tae st h

theorem tvyInv_init (db : Kels) (regk : Option String) (loc : Bool) :
    TvyInv { db := db, rg := {}, tevers := [], regk := regk, loc := loc,
             cues := [] } := by
  refine ⟨?_, ?_, ?_, ?_, ?_⟩
  · intro k e hv
    exact Option.noConfusion hv
  · intro p n d hd
    exact Option.noConfusion hd
  · intro p n d e hT _
    exact Option.noConfusion hT
  · intro k tv hT
    exact Option.noConfusion hT
  · intro k _ _ n
    rfl

/-- Every reachable `Tevery` state satisfies the invariant — in particular
the logged first-seen indexes form hash chains. -/
theorem tvyInv_reach {st : TvySt} (h : Reach st) : TvyInv st := by
  induction h with
  | init db regk loc => exact tvyInv_init db regk loc
  | step st serder seqner diger wigers _ ih =>
    exact processEvent_inv st serder seqner diger wigers ih
  | drain st _ ih => exact processEscrows_inv st ih

/-- `Tever.revoke` rejects an event whose `p` does not match the logged
prior event of the credential at `sn - 1`. -/
theorem revoke_p_mismatch (tv : Tever) (db : Kels) (rg : Regs)
    (cs : List Cue) (serder : KED) (seqner : Nat) (diger : Dg) (sn : Nat)
    (bigers : List Biger) (dig : Dg) (iserder : KED)
    (hTel : getTel rg (SnK.mk (nsKey tv.prefixer serder.i) (sn - 1))
      = some dig)
    (hTvt : getTvt rg (DgK.mk (nsKey tv.prefixer serder.i) dig)
      = some iserder)
    (hne : serder.p ≠ some (digest iserder)) :
    (tv.revoke db rg cs serder seqner diger sn bigers).2.2 ≠ none := by
  simp only [Tever.revoke]
  split
  · split
    · exact fun hx => Option.noConfusion hx
    · split
      · exact fun hx => Option.noConfusion hx
      · rename_i dig0 hTel0
        split
        · exact fun hx => Option.noConfusion hx
        · rename_i iserder0 hTvt0
          split
          · exact fun hx => Option.noConfusion hx
          · rename_i pd hp
            split
            · exact fun hx => Option.noConfusion hx
            · rename_i hne0
              have hdig : dig0 = dig :=
                Option.some_inj.mp (hTel0.symm.trans hTel)
              subst hdig
              have hisd : iserder0 = iserder :=
                Option.some_inj.mp (hTvt0.symm.trans hTvt)
              subst hisd
              have hpeq : serder.p = some (digest iserder0) := by
                rw [hp, not_not.mp hne0]
              exact absurd hpeq hne
  · split
    · exact fun hx => Option.noConfusion hx
    · split
      · exact fun hx => Option.noConfusion hx
      · rename_i dig0 hTel0
        split
        · exact fun hx => Option.noConfusion hx
        · rename_i iserder0 hTvt0
          split
          · exact fun hx => Option.noConfusion hx
          · rename_i pd hp
            split
            · exact fun hx => Option.noConfusion hx
            · rename_i hne0
              have hdig : dig0 = dig :=
                Option.some_inj.mp (hTel0.symm.trans hTel)
              subst hdig
              have hisd : iserder0 = iserder :=
                Option.some_inj.mp (hTvt0.symm.trans hTvt)
              subst hisd
              have hpeq : serder.p = some (digest iserder0) := by
                rw [hp, not_not.mp hne0]
              exact absurd hpeq hne

/-- Claim C2: hash-chain continuity.  (1) In every reachable `Tevery` state,
every first-seen TEL index entry at a positive sequence number belongs to a
stored event whose `p` field is the digest of the stored first-seen event
one below it.  (2) `Tever.rotate` rejects a `vrt` whose `p` does not match
the digest of the current registry tip.  (3) `Tever.revoke` rejects a
`rev`/`brv` whose `p` does not match the logged event of that credential at
`sn - 1`. -/
theorem claim_C2_hash_chain :
    (∀ st, Reach st → ∀ p n d e,
      getTel st.rg (SnK.mk p (n + 1)) = some d →
      getTvt st.rg (DgK.mk p d) = some e →
      ∃ ep, getTvt st.rg (DgK.mk p (digest ep)) = some ep ∧
        getTel st.rg (SnK.mk p n) = some (digest ep) ∧
        e.p = some (digest ep)) ∧
    (∀ (tv : Tever) (serder : KED) (sn : Nat)
      (q : Nat × List String × List String × List String),
      serder.p ≠ some (digest tv.serder) →
      Tever.rotate tv serder sn ≠ .ok q) ∧
    (∀ (tv : Tever) (db : Kels) (rg : Regs) (cs : List Cue) (serder : KED)
      (seqner : Nat) (diger : Dg) (sn : Nat) (bigers : List Biger)
      (dig : Dg) (iserder : KED),
      getTel rg (SnK.mk (nsKey tv.prefixer serder.i) (sn - 1)) = some dig →
      getTvt rg (DgK.mk (nsKey tv.prefixer serder.i) dig) = some iserder →
      serder.p ≠ some (digest iserder) →
      (tv.revoke db rg cs serder seqner diger sn bigers).2.2 ≠ none) := by
  refine ⟨?_, ?_, ?_⟩
  · intro st hst p n d e hTel hTvt
    obtain ⟨h1, h3, hc, _, _⟩ := tvyInv_reach hst
    obtain ⟨dp, hdp, hp⟩ := hc p n d e hTel hTvt
    rcases Option.isSome_iff_exists.mp (h3 p n dp hdp) with ⟨ep, hep⟩
    have hdd : dp = digest ep := h1 _ _ hep
    subst hdd
    exact ⟨ep, hep, hdp, hp⟩
  · intro tv serder sn q hne hok
    exact hne (rotate_ok_gates tv serder sn q hok).1
  · intro tv db rg cs serder seqner diger sn bigers dig iserder hTel hTvt
      hne
    exact revoke_p_mismatch tv db rg cs serder seqner diger sn bigers dig
      iserder hTel hTvt hne

/-- Witness for claim C2 at concrete inputs: the two-event registry built
through `processEvent` satisfies the chain conclusion at sn 1; a rotation
with a stale prior digest is rejected; a backer revocation with a wrong
prior digest is rejected. -/
theorem claim_C2_witness :
    (∃ ep, getTvt fxStC2.rg (DgK.mk fxRegC (digest ep)) = some ep ∧
      getTel fxStC2.rg (SnK.mk fxRegC 0) = some (digest ep) ∧
      fxVrtC.p = some (digest ep)) ∧
    Tever.rotate fxTvNB fxVrt5 5 ≠ .ok (0, [], [], []) ∧
    (Tever.revoke fxTvNB fxDb fxRgC2r [] fxBrvBad 2 (kelDigest fxKel2) 1
      []).2.2 ≠ none :=
  ⟨claim_C2_hash_chain.1 fxStC2
      (Reach.step fxStC1 fxVrtC 2 (kelDigest fxK2C) []
        (Reach.step fxStC0 fxVcpC 1 (kelDigest fxK1C) []
          (Reach.init fxDbC2 none true)))
      fxRegC 0 (digest fxVrtC) fxVrtC rfl rfl,
   claim_C2_hash_chain.2.1 fxTvNB fxVrt5 5 (0, [], [], []) (by decide),
   claim_C2_hash_chain.2.2 fxTvNB fxDb fxRgC2r [] fxBrvBad 2
     (kelDigest fxKel2) 1 [] (digest fxIss) fxIss rfl rfl (by decide)⟩

end KeriVdr
